import Mathlib

/-!
Shallow embedding of the two blackjack card-counting environments of the
repository (`src/task01/blackjack_with_double_counting.py` and
`src/task01/blackjack_with_double_counting_split.py`).

Modelling conventions:
* Card ranks are plain `Nat` (1 = ace, 2-10 face values; 10 also stands for J/Q/K).
* The running Halves counter and all rewards are exact rationals (`ℚ`);
  the Python floats involved (±1, ±0.5, ±1.5, ±2, 1e-5) are all exactly
  representable, so no rounding behaviour is lost.
* Python exceptions (failed `assert`, `list.index` miss, `list[i]` out of
  range, `randint(0, 0)`, division by zero in the observation) are modelled
  by `Except Env _` whose `error` payload is the environment state at the
  moment the exception is raised; partial mutations performed before the
  raise are kept in that payload, mirroring Python attribute mutation.
* The numpy global random stream (`np.random`, the one the source actually
  consumes in `draw_card`) is modelled as a `List Nat` of pre-drawn values
  threaded through every call; `randint(0, n)` is modelled as taking the
  next stream element `i` and using index `i % n` (every value `randint`
  can actually return is `< n`, so `% n` is the identity on real traces).
  An exhausted stream is an error (a real stream is inexhaustible; all
  concrete traces below supply enough values).
* The per-instance seeded generator `self.np_random` (created by `seed()`
  and passed, but never used, by the source) is kept as the environment
  field `np_random`; no operation ever consumes it.
* The constructor leaves the hands as `None` (single variant: the
  attributes do not exist before the first `reset`); they are modelled as
  empty lists.  No concrete trace below draws a card before the first
  `reset` finishes, so the distinction is never exercised.
-/

namespace BJ

/-- `deck = [1, 2, 3, 4, 5, 6, 7, 8, 9, 10, 10, 10, 10]` (one suit-block). -/
def baseDeck : List Nat := [1, 2, 3, 4, 5, 6, 7, 8, 9, 10, 10, 10, 10]

/-- The `halves` weight table (property `halves` in both source classes).
Ranks outside 1-10 never occur in a deck; the dictionary lookup would raise
`KeyError` there, and we return 0 (such a lookup is never reached). -/
def halves (c : Nat) : ℚ :=
  if c = 1 then -1
  else if c = 2 then 1/2
  else if c = 3 then 1
  else if c = 4 then 1
  else if c = 5 then 3/2
  else if c = 6 then 1
  else if c = 7 then 1/2
  else if c = 8 then 0
  else if c = 9 then -1/2
  else if c = 10 then -1
  else 0

/-- Total Halves weight of a list of cards. -/
def wsum (l : List Nat) : ℚ := (l.map halves).sum

/-- `cmp(a, b) = float(a > b) - float(a < b)` from both source files. -/
def cmp (a b : Nat) : ℚ := (if a > b then 1 else 0) - (if a < b then 1 else 0)

/-- `usable_ace(hand)`: `1 in hand and sum(hand) + 10 <= 21`. -/
def usable_ace (hand : List Nat) : Bool :=
  hand.contains 1 && decide (hand.sum + 10 ≤ 21)

/-- `sum_hand(hand)`: `sum(hand) + 10` if the ace is usable else `sum(hand)`. -/
def sum_hand (hand : List Nat) : Nat :=
  if usable_ace hand then hand.sum + 10 else hand.sum

/-- `is_bust(hand)`: `sum_hand(hand) > 21`. -/
def is_bust (hand : List Nat) : Bool := decide (sum_hand hand > 21)

/-- `score(hand)`: `0 if is_bust(hand) else sum_hand(hand)`. -/
def score (hand : List Nat) : Nat := if is_bust hand then 0 else sum_hand hand

/-- `is_natural(hand)`: `sorted(hand) == [1, 10]`. -/
def is_natural (hand : List Nat) : Bool :=
  hand.mergeSort (· ≤ ·) == [1, 10]

/-- Python list repetition `l * n`. -/
def list_mul (l : List Nat) : Nat → List Nat
  | 0 => []
  | n + 1 => l ++ list_mul l n

/-- `reset_deck`: `[1, ..., 10, 10, 10, 10] * 4 * num_decks`. -/
def fresh_deck (num_decks : Nat) : List Nat := list_mul baseDeck (4 * num_decks)

/-- All cards of a list are real ranks (1-10). -/
def deck_in_range (l : List Nat) : Prop := ∀ c ∈ l, 1 ≤ c ∧ c ≤ 10

instance (l : List Nat) : Decidable (deck_in_range l) := by
  unfold deck_in_range; infer_instance

/-- `deck.pop(deck.index(card))` interleaved with the counter update, as in
the reshuffle loops of `draw_card`.  The `error` payload carries the
partially popped deck and partially updated counter (the Python attributes
mutated so far when `list.index` raises `ValueError`). -/
def pop_count_loop : List Nat → ℚ → List Nat → Bool →
    Except (List Nat × ℚ) (List Nat × ℚ)
  | deck, count, [], _ => Except.ok (deck, count)
  | deck, count, c :: rest, countIt =>
    if deck.contains c then
      pop_count_loop (deck.erase c)
        (if countIt then count + halves c else count) rest countIt
    else Except.error (deck, count)

/-- List indexing `l[i]` raising `IndexError` (error payload = state). -/
def idxE {σ : Type} (st : σ) (l : List Nat) (i : Nat) : Except σ Nat :=
  match l[i]? with
  | some c => Except.ok c
  | none => Except.error st

/-! ## Single-hand environment (`BlackjackDoubleCountingEnv`) -/

structure SEnv where
  natural : Bool
  num_decks : Nat
  shuffle_on : Nat
  deck : List Nat
  count : ℚ
  done : Bool
  player : List Nat
  dealer : List Nat
  np_random : List Nat
  deriving Repr, DecidableEq

/-- `__init__(num_decks, shuffle_on, natural)` followed by `seed(...)`
storing the seeded stream (the hands do not exist yet; modelled empty). -/
def init_single (num_decks shuffle_on : Nat) (natural : Bool)
    (seeded : List Nat) : SEnv :=
  { natural := natural, num_decks := num_decks, shuffle_on := shuffle_on,
    deck := fresh_deck num_decks, count := 0, done := false,
    player := [], dealer := [], np_random := seeded }

/-- The reshuffle branch of the single variant's `draw_card` (lines 97-116):
rebuild the deck, zero the counter, pop-and-count the player's cards, pop
the dealer's cards, count `dealer[:-1]`, and count `dealer[-1]` iff `done`. -/
def reshuffle_single (s0 : SEnv) : Except SEnv SEnv :=
  let s := { s0 with deck := fresh_deck s0.num_decks, count := 0 }
  match pop_count_loop s.deck s.count s.player true with
  | Except.error (d, c) => Except.error { s with deck := d, count := c }
  | Except.ok (d, c) =>
    let s := { s with deck := d, count := c }
    match pop_count_loop s.deck s.count s.dealer false with
    | Except.error (d, c) => Except.error { s with deck := d, count := c }
    | Except.ok (d, c) =>
      let c2 := s.dealer.dropLast.foldl (fun a x => a + halves x) c
      let s := { s with deck := d, count := c2 }
      if s.done then
        match s.dealer.getLast? with
        | none => Except.error s
        | some lc => Except.ok { s with count := s.count + halves lc }
      else Except.ok s

/-- `draw_card` (single variant): reshuffle-correct if the deck is small,
then `deck.pop(np.random.randint(0, len(deck)))`.  Consumes one value of
the global stream; `randint(0, 0)` raises. -/
def draw_card (s0 : SEnv) (g : List Nat) :
    Except SEnv (Nat × SEnv × List Nat) :=
  match (if s0.deck.length < s0.shuffle_on then reshuffle_single s0
         else Except.ok s0) with
  | Except.error e => Except.error e
  | Except.ok s =>
    match g with
    | [] => Except.error s
    | i :: g2 =>
      if hlen : s.deck.length = 0 then Except.error s
      else
        Except.ok
          (s.deck.get ⟨i % s.deck.length,
             Nat.mod_lt i (Nat.pos_of_ne_zero hlen)⟩,
           { s with deck := s.deck.eraseIdx (i % s.deck.length) }, g2)

/-- `draw_hand`: two successive `draw_card` calls building a 2-card list. -/
def draw_hand (s : SEnv) (g : List Nat) :
    Except SEnv (List Nat × SEnv × List Nat) :=
  match draw_card s g with
  | Except.error e => Except.error e
  | Except.ok (c1, s, g) =>
    match draw_card s g with
    | Except.error e => Except.error e
    | Except.ok (c2, s, g) => Except.ok ([c1, c2], s, g)

/-- The dealer play-out loop `while sum_hand(self.dealer) < 17: ...` of the
single variant (draw a card, count it, append it to the dealer's hand). -/
def dealer_loop (s : SEnv) (g : List Nat) : Except SEnv (SEnv × List Nat) :=
  if sum_hand s.dealer < 17 then
    match hdc : draw_card s g with
    | Except.error e => Except.error e
    | Except.ok (c, s2, g2) =>
      dealer_loop { s2 with count := s2.count + halves c,
                            dealer := s2.dealer ++ [c] } g2
  else Except.ok (s, g)
termination_by g.length
decreasing_by
  unfold draw_card at hdc
  split at hdc
  · exact absurd hdc (by simp)
  · cases g with
    | nil => exact absurd hdc (by simp)
    | cons i g1 =>
      simp only at hdc
      split at hdc
      · exact absurd hdc (by simp)
      · simp only [Except.ok.injEq, Prod.mk.injEq] at hdc
        obtain ⟨-, -, h⟩ := hdc
        subst h
        simp [List.length_cons]

/-- Observation tuple of the single variant: `(sum_hand(player), dealer[0],
usable_ace(player), count / ceil(len(deck) / 52))`.  An empty dealer hand
raises `IndexError`; an empty deck makes the divisor 0 and raises
`ZeroDivisionError`. -/
def get_obs (s : SEnv) : Except SEnv (Nat × Nat × Bool × ℚ) :=
  match idxE s s.dealer 0 with
  | Except.error e => Except.error e
  | Except.ok d0 =>
    if s.deck.length = 0 then Except.error s
    else
      Except.ok (sum_hand s.player, d0, usable_ace s.player,
        s.count / (((s.deck.length + 51) / 52 : Nat) : ℚ))

/-- The `action == 1` (hit) branch of the single variant's `step`. -/
def step_hit (s : SEnv) (g : List Nat) :
    Except SEnv (ℚ × SEnv × List Nat) :=
  match draw_card s g with
  | Except.error e => Except.error e
  | Except.ok (c, s, g) =>
    let s := { s with count := s.count + halves c, player := s.player ++ [c] }
    if is_bust s.player then
      let s := { s with done := true }
      match idxE s s.dealer 1 with
      | Except.error e => Except.error e
      | Except.ok d1 =>
        Except.ok (-1, { s with count := s.count + halves d1 }, g)
    else
      Except.ok (0, { s with done := false }, g)

/-- The `action == 0` (stick) branch of the single variant's `step`:
reveal/count the hole card, run the dealer loop, compare scores and apply
the natural-blackjack 1.5 override. -/
def step_stand (s : SEnv) (g : List Nat) :
    Except SEnv (ℚ × SEnv × List Nat) :=
  let s := { s with done := true }
  match idxE s s.dealer 1 with
  | Except.error e => Except.error e
  | Except.ok d1 =>
    let s := { s with count := s.count + halves d1 }
    match dealer_loop s g with
    | Except.error e => Except.error e
    | Except.ok (s, g) =>
      let r := cmp (score s.player) (score s.dealer)
      let r := if s.natural && is_natural s.player && (r == 1) then 3/2 else r
      Except.ok (r, s, g)

/-- The `else` (double) branch of the single variant's `step`.  Note the
source adds `halves[dealer[1]]` a second time in the bust sub-branch
(lines 174 and 181 of the source). -/
def step_double (s : SEnv) (g : List Nat) :
    Except SEnv (ℚ × SEnv × List Nat) :=
  match draw_card s g with
  | Except.error e => Except.error e
  | Except.ok (c, s, g) =>
    let s := { s with count := s.count + halves c, player := s.player ++ [c] }
    match idxE s s.dealer 1 with
    | Except.error e => Except.error e
    | Except.ok d1 =>
      let s := { s with count := s.count + halves d1, done := true }
      if is_bust s.player then
        match idxE s s.dealer 1 with
        | Except.error e => Except.error e
        | Except.ok d1b =>
          Except.ok (-2, { s with count := s.count + halves d1b }, g)
      else
        match dealer_loop s g with
        | Except.error e => Except.error e
        | Except.ok (s, g) =>
          Except.ok (2 * cmp (score s.player) (score s.dealer), s, g)

/-- `step(action)` of the single variant.  The first statement is
`assert self.action_space.contains(action)` with `action_space =
Discrete(3)`; an action outside `{0, 1, 2}` raises `AssertionError` with
the state untouched.  The final statement returns
`(self._get_obs(), reward, self.done, {})`. -/
def step (s : SEnv) (a : Int) (g : List Nat) :
    Except SEnv (((Nat × Nat × Bool × ℚ) × ℚ × Bool) × SEnv × List Nat) :=
  if ¬(0 ≤ a ∧ a < 3) then Except.error s
  else
    match (if a = 1 then step_hit s g
           else if a = 0 then step_stand s g
           else step_double s g) with
    | Except.error e => Except.error e
    | Except.ok (r, s2, g2) =>
      match get_obs s2 with
      | Except.error e => Except.error e
      | Except.ok o => Except.ok ((o, r, s2.done), s2, g2)

/-- `reset()` of the single variant: clear `done`, rebuild the deck with a
plain `reset_deck` (no correction) if it is small, deal the dealer then the
player, counting `dealer[0]`, `player[0]`, `player[1]`. -/
def reset (s0 : SEnv) (g : List Nat) :
    Except SEnv ((Nat × Nat × Bool × ℚ) × SEnv × List Nat) :=
  let s := { s0 with done := false }
  let s := if s.deck.length < s.shuffle_on then
             { s with deck := fresh_deck s.num_decks, count := 0 }
           else s
  match draw_hand s g with
  | Except.error e => Except.error e
  | Except.ok (dealer, s, g) =>
    let s := { s with dealer := dealer }
    match idxE s s.dealer 0 with
    | Except.error e => Except.error e
    | Except.ok d0 =>
      let s := { s with count := s.count + halves d0 }
      match draw_hand s g with
      | Except.error e => Except.error e
      | Except.ok (player, s, g) =>
        let s := { s with player := player }
        match idxE s s.player 0, idxE s s.player 1 with
        | Except.ok p0, Except.ok p1 =>
          let s := { s with count := s.count + halves p0 + halves p1 }
          match get_obs s with
          | Except.error e => Except.error e
          | Except.ok o => Except.ok (o, s, g)
        | _, _ => Except.error s

/-- The quantity of the count-neutrality property for the single variant:
sum over the shoe of the Halves weights, plus the running counter.  (For a
shoe all of whose cards are real ranks 1-10 — every shoe the program ever
builds — `wsum` coincides with "sum over all ranks of count-of-rank-in-shoe
times weight of rank".) -/
def Qs (s : SEnv) : ℚ := wsum s.deck + s.count

/-! ## Split environment (`BlackjackDoubleCountingSplitEnv`) -/

structure TEnv where
  natural : Bool
  num_decks : Nat
  shuffle_on : Nat
  deck : List Nat
  count : ℚ
  player_left : List Nat
  done_left : Bool
  reward_left : ℚ
  player_right : List Nat
  done_right : Bool
  reward_right : ℚ
  dealer : List Nat
  split_possible : Bool
  action_n : Nat
  np_random : List Nat
  deriving Repr, DecidableEq

/-- `__init__` of the split variant (hands are `None`, modelled empty;
`done_right` starts `True`; `action_space = Discrete(4)`). -/
def init_split (num_decks shuffle_on : Nat) (natural : Bool)
    (seeded : List Nat) : TEnv :=
  { natural := natural, num_decks := num_decks, shuffle_on := shuffle_on,
    deck := fresh_deck num_decks, count := 0,
    player_left := [], done_left := false, reward_left := 0,
    player_right := [], done_right := true, reward_right := 0,
    dealer := [], split_possible := false, action_n := 4,
    np_random := seeded }

/-- The reshuffle branch of the split variant's `draw_card` (lines 123-147):
rebuild the deck, zero the counter, pop-and-count both player hands, pop the
dealer's cards, count `dealer[:-1]`, and count `dealer[-1]` iff
`done_left & done_right`. -/
def reshuffle_split (s0 : TEnv) : Except TEnv TEnv :=
  let s := { s0 with deck := fresh_deck s0.num_decks, count := 0 }
  match pop_count_loop s.deck s.count s.player_left true with
  | Except.error (d, c) => Except.error { s with deck := d, count := c }
  | Except.ok (d, c) =>
    let s := { s with deck := d, count := c }
    match pop_count_loop s.deck s.count s.player_right true with
    | Except.error (d, c) => Except.error { s with deck := d, count := c }
    | Except.ok (d, c) =>
      let s := { s with deck := d, count := c }
      match pop_count_loop s.deck s.count s.dealer false with
      | Except.error (d, c) => Except.error { s with deck := d, count := c }
      | Except.ok (d, c) =>
        let c2 := s.dealer.dropLast.foldl (fun a x => a + halves x) c
        let s := { s with deck := d, count := c2 }
        if s.done_left && s.done_right then
          match s.dealer.getLast? with
          | none => Except.error s
          | some lc => Except.ok { s with count := s.count + halves lc }
        else Except.ok s

/-- `draw_card` of the split variant. -/
def draw_card_s (s0 : TEnv) (g : List Nat) :
    Except TEnv (Nat × TEnv × List Nat) :=
  match (if s0.deck.length < s0.shuffle_on then reshuffle_split s0
         else Except.ok s0) with
  | Except.error e => Except.error e
  | Except.ok s =>
    match g with
    | [] => Except.error s
    | i :: g2 =>
      if hlen : s.deck.length = 0 then Except.error s
      else
        Except.ok
          (s.deck.get ⟨i % s.deck.length,
             Nat.mod_lt i (Nat.pos_of_ne_zero hlen)⟩,
           { s with deck := s.deck.eraseIdx (i % s.deck.length) }, g2)

/-- `draw_hand` of the split variant. -/
def draw_hand_s (s : TEnv) (g : List Nat) :
    Except TEnv (List Nat × TEnv × List Nat) :=
  match draw_card_s s g with
  | Except.error e => Except.error e
  | Except.ok (c1, s, g) =>
    match draw_card_s s g with
    | Except.error e => Except.error e
    | Except.ok (c2, s, g) => Except.ok ([c1, c2], s, g)

/-- The dealer play-out loop of the split variant. -/
def dealer_loop_s (s : TEnv) (g : List Nat) : Except TEnv (TEnv × List Nat) :=
  if sum_hand s.dealer < 17 then
    match hdc : draw_card_s s g with
    | Except.error e => Except.error e
    | Except.ok (c, s2, g2) =>
      dealer_loop_s { s2 with count := s2.count + halves c,
                              dealer := s2.dealer ++ [c] } g2
  else Except.ok (s, g)
termination_by g.length
decreasing_by
  unfold draw_card_s at hdc
  split at hdc
  · exact absurd hdc (by simp)
  · cases g with
    | nil => exact absurd hdc (by simp)
    | cons i g1 =>
      simp only at hdc
      split at hdc
      · exact absurd hdc (by simp)
      · simp only [Except.ok.injEq, Prod.mk.injEq] at hdc
        obtain ⟨-, -, h⟩ := hdc
        subst h
        simp [List.length_cons]

/-- Observation tuple of the split variant. -/
def get_obs_s (s : TEnv) :
    Except TEnv (Nat × Bool × Nat × Bool × Nat × Bool × ℚ) :=
  match idxE s s.dealer 0 with
  | Except.error e => Except.error e
  | Except.ok d0 =>
    if s.deck.length = 0 then Except.error s
    else
      Except.ok (sum_hand s.player_left, usable_ace s.player_left,
        sum_hand s.player_right, usable_ace s.player_right, d0,
        s.split_possible,
        s.count / (((s.deck.length + 51) / 52 : Nat) : ℚ))

/-- The `action == 1` (hit) branch of the split variant's `step`: hit the
left hand while it is live, else the right hand.  When the right hand
busts, the hole card is counted and — when `reward_left < -1e-5`, i.e. the
left hand busted — the dealer is played out and the left reward recomputed
(the source comment claims the opposite condition). -/
def step_hit_s (s : TEnv) (g : List Nat) : Except TEnv (TEnv × List Nat) :=
  if s.done_left = false then
    match draw_card_s s g with
    | Except.error e => Except.error e
    | Except.ok (c, s, g) =>
      let s := { s with count := s.count + halves c,
                        player_left := s.player_left ++ [c] }
      if is_bust s.player_left then
        let s := { s with done_left := true, reward_left := -1 }
        if s.done_right then
          match idxE s s.dealer 1 with
          | Except.error e => Except.error e
          | Except.ok d1 =>
            Except.ok ({ s with count := s.count + halves d1 }, g)
        else Except.ok (s, g)
      else
        Except.ok ({ s with done_left := false, reward_left := 0 }, g)
  else if s.done_right = false then
    match draw_card_s s g with
    | Except.error e => Except.error e
    | Except.ok (c, s, g) =>
      let s := { s with count := s.count + halves c,
                        player_right := s.player_right ++ [c] }
      if is_bust s.player_right then
        let s := { s with done_right := true, reward_right := -1 }
        match idxE s s.dealer 1 with
        | Except.error e => Except.error e
        | Except.ok d1 =>
          let s := { s with count := s.count + halves d1 }
          if s.reward_left < -(1/100000 : ℚ) then
            match dealer_loop_s s g with
            | Except.error e => Except.error e
            | Except.ok (s, g) =>
              let rl := cmp (score s.player_left) (score s.dealer)
              Except.ok ({ s with reward_left := rl }, g)
          else Except.ok (s, g)
      else
        Except.ok ({ s with done_right := false, reward_right := 0 }, g)
  else Except.ok (s, g)

/-- The `action == 0` (stick) branch of the split variant's `step`. -/
def step_stand_s (s : TEnv) (g : List Nat) : Except TEnv (TEnv × List Nat) :=
  if s.done_left = false then
    let s := { s with done_left := true }
    if s.done_right then
      match idxE s s.dealer 1 with
      | Except.error e => Except.error e
      | Except.ok d1 =>
        let s := { s with count := s.count + halves d1 }
        match dealer_loop_s s g with
        | Except.error e => Except.error e
        | Except.ok (s, g) =>
          let r := cmp (score s.player_left) (score s.dealer)
          let r := if s.natural && is_natural s.player_left && (r == 1)
                   then 3/2 else r
          Except.ok ({ s with reward_left := r }, g)
    else Except.ok (s, g)
  else if s.done_right = false then
    let s := { s with done_right := true }
    match idxE s s.dealer 1 with
    | Except.error e => Except.error e
    | Except.ok d1 =>
      let s := { s with count := s.count + halves d1 }
      match dealer_loop_s s g with
      | Except.error e => Except.error e
      | Except.ok (s, g) =>
        let rl := cmp (score s.player_left) (score s.dealer)
        let rl := if s.natural && is_natural s.player_left && (rl == 1)
                  then 3/2 else rl
        let rr := cmp (score s.player_right) (score s.dealer)
        let rr := if s.natural && is_natural s.player_right && (rr == 1)
                  then 3/2 else rr
        Except.ok ({ s with reward_left := rl, reward_right := rr }, g)
  else Except.ok (s, g)

/-- The `action == 2` (double) branch of the split variant's `step`.  In the
right-hand sub-branch both rewards are set to `2 * cmp(...)` after the
dealer plays out, overwriting any earlier `-2` bust reward. -/
def step_double_s (s : TEnv) (g : List Nat) : Except TEnv (TEnv × List Nat) :=
  if s.done_left = false then
    match draw_card_s s g with
    | Except.error e => Except.error e
    | Except.ok (c, s, g) =>
      let s := { s with count := s.count + halves c,
                        player_left := s.player_left ++ [c] }
      let s := { s with done_left := true }
      let s := if is_bust s.player_left then { s with reward_left := -2 }
               else s
      if s.done_right then
        match idxE s s.dealer 1 with
        | Except.error e => Except.error e
        | Except.ok d1 =>
          let s := { s with count := s.count + halves d1 }
          match dealer_loop_s s g with
          | Except.error e => Except.error e
          | Except.ok (s, g) =>
            let rl := 2 * cmp (score s.player_left) (score s.dealer)
            Except.ok ({ s with reward_left := rl }, g)
      else Except.ok (s, g)
  else if s.done_right = false then
    match draw_card_s s g with
    | Except.error e => Except.error e
    | Except.ok (c, s, g) =>
      let s := { s with count := s.count + halves c,
                        player_right := s.player_right ++ [c] }
      let s := { s with done_right := true }
      let s := if is_bust s.player_right then { s with reward_right := -2 }
               else s
      match idxE s s.dealer 1 with
      | Except.error e => Except.error e
      | Except.ok d1 =>
        let s := { s with count := s.count + halves d1 }
        match dealer_loop_s s g with
        | Except.error e => Except.error e
        | Except.ok (s, g) =>
          Except.ok ({ s with
            reward_left := 2 * cmp (score s.player_left) (score s.dealer),
            reward_right :=
              2 * cmp (score s.player_right) (score s.dealer) }, g)
  else Except.ok (s, g)

/-- The `action == 3` (split) branch: move `player_left.pop(1)` onto the
right hand, draw one card to each hand (counting both), shrink the action
space to 3, clear `split_possible`, open the right hand. -/
def step_split_s (s : TEnv) (g : List Nat) : Except TEnv (TEnv × List Nat) :=
  match s.player_left[1]? with
  | none => Except.error s
  | some moved =>
    let s := { s with player_left := s.player_left.eraseIdx 1,
                      player_right := s.player_right ++ [moved] }
    match draw_card_s s g with
    | Except.error e => Except.error e
    | Except.ok (c, s, g) =>
      let s := { s with count := s.count + halves c,
                        player_left := s.player_left ++ [c] }
      match draw_card_s s g with
      | Except.error e => Except.error e
      | Except.ok (c2, s, g) =>
        let s := { s with count := s.count + halves c2,
                          player_right := s.player_right ++ [c2] }
        Except.ok ({ s with action_n := 3, split_possible := false,
                            done_right := false }, g)

/-- `step(action)` of the split variant.  The first statement is
`assert self.action_space.contains(action)` with `action_space.n` mutable
(4, or 3 once a split is used / impossible).  The final statement returns
`(obs, reward_left + reward_right, done_left & done_right, {})`. -/
def step_s (s : TEnv) (a : Int) (g : List Nat) :
    Except TEnv (((Nat × Bool × Nat × Bool × Nat × Bool × ℚ) × ℚ × Bool) ×
      TEnv × List Nat) :=
  if ¬(0 ≤ a ∧ a < (s.action_n : Int)) then Except.error s
  else
    match (if a = 1 then step_hit_s s g
           else if a = 0 then step_stand_s s g
           else if a = 2 then step_double_s s g
           else if a = 3 then step_split_s s g
           else Except.ok (s, g)) with
    | Except.error e => Except.error e
    | Except.ok (s2, g2) =>
      match get_obs_s s2 with
      | Except.error e => Except.error e
      | Except.ok o =>
        Except.ok ((o, s2.reward_left + s2.reward_right,
          s2.done_left && s2.done_right), s2, g2)

/-- `reset()` of the split variant.  Note the done flags and rewards are
reassigned only after the four draws, and `split_possible` is set from the
equality of the two dealt player cards. -/
def reset_s (s0 : TEnv) (g : List Nat) :
    Except TEnv ((Nat × Bool × Nat × Bool × Nat × Bool × ℚ) ×
      TEnv × List Nat) :=
  let s := if s0.deck.length < s0.shuffle_on then
             { s0 with deck := fresh_deck s0.num_decks, count := 0 }
           else s0
  match draw_hand_s s g with
  | Except.error e => Except.error e
  | Except.ok (dealer, s, g) =>
    let s := { s with dealer := dealer }
    match idxE s s.dealer 0 with
    | Except.error e => Except.error e
    | Except.ok d0 =>
      let s := { s with count := s.count + halves d0 }
      match draw_hand_s s g with
      | Except.error e => Except.error e
      | Except.ok (pl, s, g) =>
        let s := { s with player_left := pl, player_right := [] }
        match idxE s s.player_left 0, idxE s s.player_left 1 with
        | Except.ok p0, Except.ok p1 =>
          let s := { s with count := s.count + halves p0 + halves p1,
                            done_left := false, done_right := true,
                            reward_left := 0, reward_right := 0 }
          let s := if p0 = p1 then
                     { s with action_n := 4, split_possible := true }
                   else
                     { s with action_n := 3, split_possible := false }
          match get_obs_s s with
          | Except.error e => Except.error e
          | Except.ok o => Except.ok (o, s, g)
        | _, _ => Except.error s

/-- Count-neutrality quantity for the split variant. -/
def Qt (s : TEnv) : ℚ := wsum s.deck + s.count

/-! ## Concrete trace harness

A driver action: call `reset`, or call `step` with a given action code.
Used only to exhibit concrete reachable states. -/

inductive Act where
  | res : Act
  | act : Int → Act

/-- Drive the single environment through a script of calls. -/
def run_single : SEnv → List Nat → List Act → Except SEnv (SEnv × List Nat)
  | s, g, [] => Except.ok (s, g)
  | s, g, Act.res :: rest =>
    match reset s g with
    | Except.error e => Except.error e
    | Except.ok (_, s2, g2) => run_single s2 g2 rest
  | s, g, Act.act a :: rest =>
    match step s a g with
    | Except.error e => Except.error e
    | Except.ok (_, s2, g2) => run_single s2 g2 rest

/-- Drive the split environment through a script of calls. -/
def run_split : TEnv → List Nat → List Act → Except TEnv (TEnv × List Nat)
  | s, g, [] => Except.ok (s, g)
  | s, g, Act.res :: rest =>
    match reset_s s g with
    | Except.error e => Except.error e
    | Except.ok (_, s2, g2) => run_split s2 g2 rest
  | s, g, Act.act a :: rest =>
    match step_s s a g with
    | Except.error e => Except.error e
    | Except.ok (_, s2, g2) => run_split s2 g2 rest

/-- Extract the final single-variant state of a run (error payload if any). -/
def sEnvOf : Except SEnv (SEnv × List Nat) → SEnv
  | Except.ok (s, _) => s
  | Except.error e => e

/-- Extract the final split-variant state of a run (error payload if any). -/
def tEnvOf : Except TEnv (TEnv × List Nat) → TEnv
  | Except.ok (s, _) => s
  | Except.error e => e

/-- Extract the state of a `reshuffle_single` result. -/
def sEnvOfR : Except SEnv SEnv → SEnv
  | Except.ok s => s
  | Except.error e => e

/-- Extract the state of a `reshuffle_split` result. -/
def tEnvOfR : Except TEnv TEnv → TEnv
  | Except.ok s => s
  | Except.error e => e

/-- Return type of `step` / `reset` (single variant). -/
abbrev SRet := Except SEnv (((Nat × Nat × Bool × ℚ) × ℚ × Bool) × SEnv × List Nat)

/-- Return type of `step_s` / `reset_s` (split variant). -/
abbrev TRet := Except TEnv (((Nat × Bool × Nat × Bool × Nat × Bool × ℚ) × ℚ × Bool) × TEnv × List Nat)

/-- State component of a single-variant `step`/`reset` result. -/
def outS : SRet → SEnv
  | Except.ok (_, s, _) => s
  | Except.error e => e

/-- Observation component of a single-variant `step`/`reset` result. -/
def obsS : SRet → Nat × Nat × Bool × ℚ
  | Except.ok (x, _, _) => x.1
  | Except.error _ => (0, 0, false, 0)

/-- Reward component of a single-variant `step`/`reset` result. -/
def rewS : SRet → ℚ
  | Except.ok (x, _, _) => x.2.1
  | Except.error _ => 0

/-- Terminal-flag component of a single-variant `step`/`reset` result. -/
def doneS : SRet → Bool
  | Except.ok (x, _, _) => x.2.2
  | Except.error _ => false

/-- Remaining-stream component of a single-variant `step`/`reset` result. -/
def rngS : SRet → List Nat
  | Except.ok (_, _, g) => g
  | Except.error _ => []

/-- State component of a split-variant `step_s`/`reset_s` result. -/
def outT : TRet → TEnv
  | Except.ok (_, s, _) => s
  | Except.error e => e

/-- Observation component of a split-variant `step_s`/`reset_s` result. -/
def obsT : TRet → Nat × Bool × Nat × Bool × Nat × Bool × ℚ
  | Except.ok (x, _, _) => x.1
  | Except.error _ => (0, false, 0, false, 0, false, 0)

/-- Reward component of a split-variant `step_s`/`reset_s` result. -/
def rewT : TRet → ℚ
  | Except.ok (x, _, _) => x.2.1
  | Except.error _ => 0

/-- Terminal-flag component of a split-variant `step_s`/`reset_s` result. -/
def doneT : TRet → Bool
  | Except.ok (x, _, _) => x.2.2
  | Except.error _ => false

/-- Remaining-stream component of a split-variant `step_s`/`reset_s` result. -/
def rngT : TRet → List Nat
  | Except.ok (_, _, g) => g
  | Except.error _ => []

/-! ## Concrete inputs used by counterexamples and witnesses -/

/-- Global-stream values for the C1 counterexample trace: with one deck and
`shuffle_on = 40` they deal dealer `[2, 10]`, player `[10, 9]`, a doubled
(busting) `10`, then a second round dealing dealer `[7, 8]`, player `[2, 3]`
and four safe hits `2, 3, 2, 3`, leaving a 39-card deck. -/
def c1_g : List Nat := [1, 8, 8, 7, 7, 5, 5, 7, 1, 18, 6, 29, 17]

/-- Driver script for the C1 counterexample: one round ended by a busting
double, then a second round with four hits. -/
def c1_script : List Act :=
  [Act.res, Act.act 2, Act.res, Act.act 1, Act.act 1, Act.act 1, Act.act 1]

/-- The reachable pre-reshuffle state of the C1 counterexample. -/
def c1_pre : SEnv := sEnvOf (run_single (init_single 1 40 false []) c1_g c1_script)

/-- The state immediately after the reshuffle correction fires at `c1_pre`. -/
def c1_post : SEnv := sEnvOfR (reshuffle_single c1_pre)

/-- A single-variant state satisfying the count invariant, used to witness
the amended C1 theorem. -/
def c1w_s : SEnv :=
  { natural := false, num_decks := 1, shuffle_on := 40,
    deck := fresh_deck 1, count := 1, done := false,
    player := [7], dealer := [5, 10], np_random := [] }

/-- The reshuffle of `c1w_s`. -/
def c1w_s2 : SEnv := sEnvOfR (reshuffle_single c1w_s)

/-- A split-variant state satisfying the count invariant, used to witness
the amended C1 theorem. -/
def c1w_t : TEnv :=
  { natural := false, num_decks := 1, shuffle_on := 40,
    deck := fresh_deck 1, count := 1,
    player_left := [7], done_left := false, reward_left := 0,
    player_right := [], done_right := true, reward_right := 0,
    dealer := [5, 10], split_possible := false, action_n := 3,
    np_random := [] }

/-- The reshuffle of `c1w_t`. -/
def c1w_t2 : TEnv := tEnvOfR (reshuffle_split c1w_t)

/-- C2 failing input: split round after a split, left hand stood on
`[10, 9]` (19, not bust, pending reward 0), right hand `[10, 5]` still live,
dealer showing `[7, 8]` (15).  The stream makes the right hit draw a 10. -/
def c2_env : TEnv :=
  { natural := false, num_decks := 1, shuffle_on := 15,
    deck := fresh_deck 1, count := 0,
    player_left := [10, 9], done_left := true, reward_left := 0,
    player_right := [10, 5], done_right := false, reward_right := 0,
    dealer := [7, 8], split_possible := false, action_n := 3,
    np_random := [] }

/-- Result state of hitting the right hand of `c2_env` (drawing a 10). -/
def c2_out : TEnv := outT (step_s c2_env 1 [9])

/-- C3 failing input: single variant, player `[10, 9]`, dealer `[5, 10]`
(hole card 10, weight -1); the stream makes the doubled card a 10 (bust). -/
def c3_env : SEnv :=
  { natural := false, num_decks := 1, shuffle_on := 15,
    deck := fresh_deck 1, count := 0, done := false,
    player := [10, 9], dealer := [5, 10], np_random := [] }

/-- Result state of doubling on `c3_env`. -/
def c3_out : SEnv := outS (step c3_env 2 [9])

/-- C4 failing input: a freshly constructed, freshly seeded instance (its
seeded stream is `[7]`). -/
def c4_env : SEnv := init_single 1 15 false [7]

/-- Card drawn by a single-variant `draw_card` result (0 on error). -/
def cardOfDrawS : Except SEnv (Nat × SEnv × List Nat) → Nat
  | Except.ok (c, _, _) => c
  | Except.error _ => 0

/-- State of a single-variant `draw_card` result. -/
def envOfDrawS : Except SEnv (Nat × SEnv × List Nat) → SEnv
  | Except.ok (_, s, _) => s
  | Except.error e => e

/-- C5 counterexample: one-deck split environment dealt dealer `[1, 2]` and
the pair `[8, 8]` (so `split_possible` is set), followed by one non-busting
hit (drawing a 3). -/
def c5_pre : TEnv :=
  tEnvOf (run_split (init_split 1 15 false []) [0, 0, 5, 17, 0]
    [Act.res, Act.act 1])

/-- Fresh split environment used to witness the amended C5 theorem. -/
def c5w_env : TEnv := init_split 1 15 false []

/-- State component of a split-variant `reset_s` result. -/
def resetOutT :
    Except TEnv ((Nat × Bool × Nat × Bool × Nat × Bool × ℚ) × TEnv × List Nat) →
      TEnv
  | Except.ok (_, s, _) => s
  | Except.error e => e

/-- Observation component of a split-variant `reset_s` result. -/
def resetObsT :
    Except TEnv ((Nat × Bool × Nat × Bool × Nat × Bool × ℚ) × TEnv × List Nat) →
      Nat × Bool × Nat × Bool × Nat × Bool × ℚ
  | Except.ok (o, _, _) => o
  | Except.error _ => (0, false, 0, false, 0, false, 0)

/-- Reset of `c5w_env` dealing the pair `[8, 8]`. -/
def c5w_reset : TEnv := resetOutT (reset_s c5w_env [0, 0, 5, 17])

/-- The state after taking SPLIT from `c5w_reset`. -/
def c5w_split : TEnv := outT (step_s c5w_reset 3 [0, 0])

/-- The state after taking HIT from `c5w_reset`. -/
def c5w_hit : TEnv := outT (step_s c5w_reset 1 [0])

/-- C6 witness input: split state with the left hand finished on `[10, 9]`
and the live right hand `[5, 6]`; dealer `[10, 6]` must draw once. -/
def c6_env : TEnv :=
  { natural := false, num_decks := 1, shuffle_on := 15,
    deck := fresh_deck 1, count := 0,
    player_left := [10, 9], done_left := true, reward_left := 0,
    player_right := [5, 6], done_right := false, reward_right := 0,
    dealer := [10, 6], split_possible := false, action_n := 3,
    np_random := [] }

/-- Result of doubling the right hand of `c6_env`. -/
def c6_ret : TRet := step_s c6_env 2 [0, 0]

/-- C9 witness input: single variant standing on `[10, 9]` against dealer
`[10, 6]` (16, draws exactly one card). -/
def c9_env : SEnv :=
  { natural := false, num_decks := 1, shuffle_on := 15,
    deck := fresh_deck 1, count := 0, done := false,
    player := [10, 9], dealer := [10, 6], np_random := [] }

/-- Result of standing on `c9_env`. -/
def c9_ret : SRet := step c9_env 0 [0]

/-- C10 witness input: split state with both hands terminal. -/
def c10_env : TEnv :=
  { natural := false, num_decks := 1, shuffle_on := 15,
    deck := fresh_deck 1, count := 3,
    player_left := [10, 9], done_left := true, reward_left := 1,
    player_right := [5, 6, 10], done_right := true, reward_right := -1,
    dealer := [10, 8], split_possible := false, action_n := 3,
    np_random := [] }

/-- Observation of `c10_env` (defined; its deck and dealer are non-empty). -/
def c10_obs : Nat × Bool × Nat × Bool × Nat × Bool × ℚ :=
  match get_obs_s c10_env with
  | Except.ok o => o
  | Except.error _ => (0, false, 0, false, 0, false, 0)

/-- The count invariant of a live single-variant state: the weight left in
the shoe plus the running counter equals minus the weight of the one card
that has been drawn but not yet revealed (the dealer's last card), or 0
once the player is done and the hole card has been revealed. -/
abbrev count_inv_single (s : SEnv) : Prop :=
  wsum s.deck + s.count = (if s.done then 0 else -halves (s.dealer.getLastD 0))

/-- The count invariant of a live split-variant state. -/
abbrev count_inv_split (s : TEnv) : Prop :=
  wsum s.deck + s.count =
    (if s.done_left && s.done_right then 0 else -halves (s.dealer.getLastD 0))

/-- An action code rejected by `Discrete(3).contains`. -/
abbrev illegal_action3 (a : Int) : Prop := ¬(0 ≤ a ∧ a < 3)

/-- An action code rejected by `Discrete(n).contains`. -/
abbrev illegal_action (n : Nat) (a : Int) : Prop := ¬(0 ≤ a ∧ a < (n : Int))

end BJ

/-! ## Helper lemmas -/

namespace BJ

theorem wsum_nil : wsum [] = 0 := rfl

theorem wsum_cons (c : Nat) (l : List Nat) :
    wsum (c :: l) = halves c + wsum l := by
  simp [wsum]

theorem wsum_append (l1 l2 : List Nat) :
    wsum (l1 ++ l2) = wsum l1 + wsum l2 := by
  simp [wsum]

theorem wsum_erase {c : Nat} {l : List Nat} (h : c ∈ l) :
    wsum (l.erase c) = wsum l - halves c := by
  have hp : l.Perm (c :: l.erase c) := List.perm_cons_erase h
  have h2 := (hp.map halves).sum_eq
  simp only [List.map_cons, List.sum_cons] at h2
  rw [wsum, wsum, h2]
  ring

theorem wsum_list_mul (l : List Nat) (n : Nat) :
    wsum (list_mul l n) = n * wsum l := by
  induction n with
  | zero => simp [list_mul, wsum]
  | succ k ih =>
    rw [list_mul, wsum_append, ih]
    push_cast
    ring

theorem wsum_baseDeck : wsum baseDeck = 0 := by
  with_unfolding_all decide

theorem wsum_fresh (n : Nat) : wsum (fresh_deck n) = 0 := by
  rw [fresh_deck, wsum_list_mul, wsum_baseDeck, mul_zero]

theorem foldl_add_halves (l : List Nat) (x : ℚ) :
    l.foldl (fun a c => a + halves c) x = x + wsum l := by
  induction l generalizing x with
  | nil => simp [wsum]
  | cons c rest ih => rw [List.foldl_cons, ih, wsum_cons]; ring

theorem baseDeck_range : deck_in_range baseDeck := by decide

theorem list_mul_range {l : List Nat} (hl : deck_in_range l) (n : Nat) :
    deck_in_range (list_mul l n) := by
  induction n with
  | zero => intro c hc; simp [list_mul] at hc
  | succ k ih =>
    intro c hc
    rw [list_mul, List.mem_append] at hc
    rcases hc with hc | hc
    · exact hl c hc
    · exact ih c hc

theorem fresh_range (n : Nat) : deck_in_range (fresh_deck n) :=
  list_mul_range baseDeck_range (4 * n)

theorem erase_range {l : List Nat} (hl : deck_in_range l) (c : Nat) :
    deck_in_range (l.erase c) :=
  fun x hx => hl x (List.mem_of_mem_erase hx)

theorem eraseIdx_range {l : List Nat} (hl : deck_in_range l) (i : Nat) :
    deck_in_range (l.eraseIdx i) :=
  fun x hx => hl x (List.mem_of_mem_eraseIdx hx)

theorem pop_count_loop_spec :
    ∀ (cards deck : List Nat) (count : ℚ) (b : Bool) (d2 : List Nat) (c2 : ℚ),
      pop_count_loop deck count cards b = Except.ok (d2, c2) →
      wsum d2 = wsum deck - wsum cards ∧
      c2 = count + (if b then wsum cards else 0) ∧
      (deck_in_range deck → deck_in_range d2) := by
  intro cards
  induction cards with
  | nil =>
    intro deck count b d2 c2 h
    simp only [pop_count_loop, Except.ok.injEq, Prod.mk.injEq] at h
    obtain ⟨h1, h2⟩ := h
    subst h1; subst h2
    refine ⟨by simp [wsum], by simp [wsum], fun h => h⟩
  | cons c rest ih =>
    intro deck count b d2 c2 h
    rw [pop_count_loop] at h
    split at h
    case isTrue hc =>
      have hmem : c ∈ deck := by simpa using hc
      obtain ⟨h1, h2, h3⟩ := ih (deck.erase c) _ b d2 c2 h
      refine ⟨?_, ?_, ?_⟩
      · rw [h1, wsum_erase hmem, wsum_cons]; ring
      · rw [h2, wsum_cons]
        cases b <;> simp <;> ring
      · intro hr
        exact h3 (erase_range hr c)
    case isFalse hc => simp at h

theorem wsum_dropLast_getLast {l : List Nat} {lc : Nat}
    (h : l.getLast? = some lc) : wsum l.dropLast + halves lc = wsum l := by
  have hmem : lc ∈ l.getLast? := by simp [h]
  have hsplit := List.dropLast_append_getLast? lc hmem
  conv_rhs => rw [← hsplit]
  rw [wsum_append, wsum_cons, wsum_nil]
  ring

theorem halves_zero : halves 0 = 0 := by norm_num [halves]

theorem wsum_sub_dropLast (l : List Nat) :
    wsum l - wsum l.dropLast = halves (l.getLastD 0) := by
  cases hl : l.getLast? with
  | none =>
    have : l = [] := by
      cases l with
      | nil => rfl
      | cons a as => simp [List.getLast?_eq_getLast] at hl
    subst this
    simp [wsum_nil, List.getLastD, halves_zero]
  | some lc =>
    have h1 := wsum_dropLast_getLast hl
    have h2 : l.getLastD 0 = lc := by
      rw [List.getLastD_eq_getLast?, hl]; rfl
    rw [h2]; linarith

theorem reshuffle_single_spec {s s2 : SEnv}
    (h : reshuffle_single s = Except.ok s2) :
    s2.natural = s.natural ∧ s2.num_decks = s.num_decks ∧
    s2.shuffle_on = s.shuffle_on ∧ s2.done = s.done ∧
    s2.player = s.player ∧ s2.dealer = s.dealer ∧
    s2.np_random = s.np_random ∧ deck_in_range s2.deck ∧
    wsum s2.deck + s2.count =
      (if s.done then 0 else -halves (s.dealer.getLastD 0)) := by
  simp only [reshuffle_single] at h
  cases h1 : pop_count_loop (fresh_deck s.num_decks) 0 s.player true with
  | error e => rw [h1] at h; simp at h
  | ok v1 =>
    obtain ⟨d1, c1⟩ := v1
    rw [h1] at h
    simp only at h
    cases h2 : pop_count_loop d1 c1 s.dealer false with
    | error e => rw [h2] at h; simp at h
    | ok v2 =>
      obtain ⟨d2, c2⟩ := v2
      rw [h2] at h
      simp only at h
      obtain ⟨hw1, hc1, hr1⟩ :=
        pop_count_loop_spec s.player (fresh_deck s.num_decks) 0 true d1 c1 h1
      obtain ⟨hw2, hc2, hr2⟩ := pop_count_loop_spec s.dealer d1 c1 false d2 c2 h2
      have hrange : deck_in_range d2 := hr2 (hr1 (fresh_range s.num_decks))
      have hwd : wsum d2 = -(wsum s.player) - wsum s.dealer := by
        rw [hw2, hw1, wsum_fresh]; ring
      have hcv : c2 = wsum s.player := by rw [hc2, hc1]; simp
      by_cases hdone : s.done
      · rw [if_pos hdone] at h
        cases h3 : s.dealer.getLast? with
        | none => rw [h3] at h; simp at h
        | some lc =>
          rw [h3] at h
          simp only [Except.ok.injEq] at h
          subst h
          refine ⟨rfl, rfl, rfl, rfl, rfl, rfl, rfl, hrange, ?_⟩
          rw [if_pos hdone]
          simp only
          rw [foldl_add_halves, hwd, hcv]
          have := wsum_dropLast_getLast h3
          linarith
      · rw [if_neg hdone] at h
        simp only [Except.ok.injEq] at h
        subst h
        refine ⟨rfl, rfl, rfl, rfl, rfl, rfl, rfl, hrange, ?_⟩
        rw [if_neg hdone]
        simp only
        rw [foldl_add_halves, hwd, hcv]
        have := wsum_sub_dropLast s.dealer
        linarith

theorem reshuffle_split_spec {s s2 : TEnv}
    (h : reshuffle_split s = Except.ok s2) :
    s2.natural = s.natural ∧ s2.num_decks = s.num_decks ∧
    s2.shuffle_on = s.shuffle_on ∧
    s2.player_left = s.player_left ∧ s2.done_left = s.done_left ∧
    s2.reward_left = s.reward_left ∧
    s2.player_right = s.player_right ∧ s2.done_right = s.done_right ∧
    s2.reward_right = s.reward_right ∧ s2.dealer = s.dealer ∧
    s2.split_possible = s.split_possible ∧ s2.action_n = s.action_n ∧
    s2.np_random = s.np_random ∧ deck_in_range s2.deck ∧
    wsum s2.deck + s2.count =
      (if s.done_left && s.done_right then 0
       else -halves (s.dealer.getLastD 0)) := by
  simp only [reshuffle_split] at h
  cases h1 : pop_count_loop (fresh_deck s.num_decks) 0 s.player_left true with
  | error e => rw [h1] at h; simp at h
  | ok v1 =>
    obtain ⟨d1, c1⟩ := v1
    rw [h1] at h
    simp only at h
    cases h2 : pop_count_loop d1 c1 s.player_right true with
    | error e => rw [h2] at h; simp at h
    | ok v2 =>
      obtain ⟨d2, c2⟩ := v2
      rw [h2] at h
      simp only at h
      cases h3 : pop_count_loop d2 c2 s.dealer false with
      | error e => rw [h3] at h; simp at h
      | ok v3 =>
        obtain ⟨d3, c3⟩ := v3
        rw [h3] at h
        simp only at h
        obtain ⟨hw1, hc1, hr1⟩ :=
          pop_count_loop_spec s.player_left (fresh_deck s.num_decks) 0 true d1 c1 h1
        obtain ⟨hw2, hc2, hr2⟩ :=
          pop_count_loop_spec s.player_right d1 c1 true d2 c2 h2
        obtain ⟨hw3, hc3, hr3⟩ := pop_count_loop_spec s.dealer d2 c2 false d3 c3 h3
        have hrange : deck_in_range d3 := hr3 (hr2 (hr1 (fresh_range s.num_decks)))
        have hwd : wsum d3 = -(wsum s.player_left) - wsum s.player_right -
            wsum s.dealer := by
          rw [hw3, hw2, hw1, wsum_fresh]; ring
        have hcv : c3 = wsum s.player_left + wsum s.player_right := by
          rw [hc3, hc2, hc1]; simp
        by_cases hdone : (s.done_left && s.done_right) = true
        · rw [if_pos hdone] at h
          cases h4 : s.dealer.getLast? with
          | none => rw [h4] at h; simp at h
          | some lc =>
            rw [h4] at h
            simp only [Except.ok.injEq] at h
            subst h
            refine ⟨rfl, rfl, rfl, rfl, rfl, rfl, rfl, rfl, rfl, rfl, rfl, rfl,
              rfl, hrange, ?_⟩
            rw [if_pos hdone]
            simp only
            rw [foldl_add_halves, hwd, hcv]
            have := wsum_dropLast_getLast h4
            linarith
        · rw [if_neg hdone] at h
          simp only [Except.ok.injEq] at h
          subst h
          refine ⟨rfl, rfl, rfl, rfl, rfl, rfl, rfl, rfl, rfl, rfl, rfl, rfl,
            rfl, hrange, ?_⟩
          rw [if_neg hdone]
          simp only
          rw [foldl_add_halves, hwd, hcv]
          have := wsum_sub_dropLast s.dealer
          linarith

theorem sum_le_sum_hand (l : List Nat) : l.sum ≤ sum_hand l := by
  rw [sum_hand]
  split
  · exact Nat.le_add_right _ _
  · exact Nat.le_refl _

theorem draw_card_spec {s : SEnv} {g : List Nat} {c : Nat} {s2 : SEnv}
    {g2 : List Nat} (h : draw_card s g = Except.ok (c, s2, g2)) :
    s2.natural = s.natural ∧ s2.num_decks = s.num_decks ∧
    s2.shuffle_on = s.shuffle_on ∧ s2.done = s.done ∧
    s2.player = s.player ∧ s2.dealer = s.dealer ∧
    s2.np_random = s.np_random ∧ g2.length < g.length ∧
    (deck_in_range s.deck → (1 ≤ c ∧ c ≤ 10) ∧ deck_in_range s2.deck) := by
  simp only [draw_card] at h
  cases hpre : (if s.deck.length < s.shuffle_on then reshuffle_single s
                else Except.ok s) with
  | error e => rw [hpre] at h; simp at h
  | ok s1 =>
    rw [hpre] at h
    simp only at h
    have h1 : s1.natural = s.natural ∧ s1.num_decks = s.num_decks ∧
        s1.shuffle_on = s.shuffle_on ∧ s1.done = s.done ∧
        s1.player = s.player ∧ s1.dealer = s.dealer ∧
        s1.np_random = s.np_random ∧
        (deck_in_range s.deck → deck_in_range s1.deck) := by
      split at hpre
      · obtain ⟨a, b, c', d, e, f, g', hr, -⟩ := reshuffle_single_spec hpre
        exact ⟨a, b, c', d, e, f, g', fun _ => hr⟩
      · simp only [Except.ok.injEq] at hpre
        subst hpre
        exact ⟨rfl, rfl, rfl, rfl, rfl, rfl, rfl, fun hr => hr⟩
    obtain ⟨f1, f2, f3, f4, f5, f6, f7, f8⟩ := h1
    cases g with
    | nil => simp at h
    | cons i g1 =>
      simp only at h
      split at h
      · simp at h
      case isFalse hlen =>
        simp only [Except.ok.injEq, Prod.mk.injEq] at h
        obtain ⟨hc, hs2, hg2⟩ := h
        subst hs2; subst hg2
        have hmem : c ∈ s1.deck := by
          rw [← hc]
          exact s1.deck.get_mem _ _
        refine ⟨f1, f2, f3, f4, f5, f6, f7, by simp, ?_⟩
        intro hr
        have hr1 := f8 hr
        exact ⟨hr1 c hmem, eraseIdx_range hr1 _⟩

theorem draw_card_no_shuffle {s : SEnv} {g : List Nat} {c : Nat} {s2 : SEnv}
    {g2 : List Nat} (hns : s.shuffle_on ≤ s.deck.length)
    (h : draw_card s g = Except.ok (c, s2, g2)) :
    s2.count = s.count ∧ s2.deck.length + 1 = s.deck.length ∧ c ∈ s.deck := by
  simp only [draw_card] at h
  rw [if_neg (by omega)] at h
  simp only at h
  cases g with
  | nil => simp at h
  | cons i g1 =>
    simp only at h
    split at h
    · simp at h
    case isFalse hlen =>
      simp only [Except.ok.injEq, Prod.mk.injEq] at h
      obtain ⟨hc, hs2, hg2⟩ := h
      subst hs2
      have hmem : c ∈ s.deck := by
        rw [← hc]
        exact s.deck.get_mem _ _
      refine ⟨rfl, ?_, hmem⟩
      have : i % s.deck.length < s.deck.length :=
        Nat.mod_lt i (Nat.pos_of_ne_zero hlen)
      simp only [List.length_eraseIdx, if_pos this]
      omega

theorem dealer_loop_spec :
    ∀ (s : SEnv) (g : List Nat) (s2 : SEnv) (g2 : List Nat),
      dealer_loop s g = Except.ok (s2, g2) →
      s2.natural = s.natural ∧ s2.num_decks = s.num_decks ∧
      s2.shuffle_on = s.shuffle_on ∧ s2.done = s.done ∧
      s2.player = s.player ∧ s2.np_random = s.np_random ∧
      ∃ extra, s2.dealer = s.dealer ++ extra ∧ 17 ≤ sum_hand s2.dealer ∧
        (deck_in_range s.deck →
          deck_in_range s2.deck ∧ extra.length ≤ 17 - s.dealer.sum ∧
          (s.shuffle_on + (17 - s.dealer.sum) ≤ s.deck.length →
            s2.count = s.count + wsum extra ∧
            s2.deck.length + extra.length = s.deck.length)) := by
  intro s g
  induction s, g using dealer_loop.induct with
  | case1 s g hlt e hdraw =>
    intro s2 g2 hstep
    rw [dealer_loop] at hstep
    rw [if_pos hlt] at hstep
    split at hstep
    · simp at hstep
    case h_2 c sd gd heq =>
      rw [hdraw] at heq
      simp at heq
  | case2 s g hlt c sd gd hdraw ih =>
    intro s2 g2 hstep
    rw [dealer_loop] at hstep
    rw [if_pos hlt] at hstep
    split at hstep
    case h_1 e heq =>
      rw [hdraw] at heq
      simp at heq
    case h_2 c2 sd2 gd2 heq =>
      rw [hdraw] at heq
      simp only [Except.ok.injEq, Prod.mk.injEq] at heq
      obtain ⟨hceq, hsdeq, hgdeq⟩ := heq
      subst hceq; subst hsdeq; subst hgdeq
      obtain ⟨f1, f2, f3, f4, f5, f6, f7, -, f9⟩ := draw_card_spec hdraw
      have ih2 := ih s2 g2 hstep
      simp only at ih2
      obtain ⟨e1, e2, e3, e4, e5, e6, extra, he, hsum, hrest⟩ := ih2
      refine ⟨e1.trans f1, e2.trans f2, e3.trans f3, e4.trans f4, e5.trans f5,
        e6.trans f7, c :: extra, ?_, hsum, ?_⟩
      · rw [he, f6]; simp
      · intro hr
        obtain ⟨⟨hc1, hc10⟩, hrd⟩ := f9 hr
        have hsle := sum_le_sum_hand s.dealer
        have hdsum : s.dealer.sum ≤ 16 := by omega
        obtain ⟨hr2, hlen2, hcount2⟩ := hrest hrd
        have hsum_c : (sd.dealer ++ [c]).sum = s.dealer.sum + c := by
          rw [f6]; simp
        refine ⟨hr2, ?_, ?_⟩
        · rw [hsum_c] at hlen2
          simp only [List.length_cons]
          omega
        · intro hmargin
          have hnos : s.shuffle_on ≤ s.deck.length := by omega
          obtain ⟨hcnt, hlen, -⟩ := draw_card_no_shuffle hnos hdraw
          have hmargin2 : sd.shuffle_on + (17 - (sd.dealer ++ [c]).sum) ≤
              sd.deck.length := by
            rw [hsum_c, f3]
            omega
          obtain ⟨hcc, hll⟩ := hcount2 hmargin2
          constructor
          · rw [hcc, hcnt, wsum_cons]; ring
          · simp only [List.length_cons]
            omega
  | case3 s g hge =>
    intro s2 g2 hstep
    rw [dealer_loop] at hstep
    rw [if_neg hge] at hstep
    simp only [Except.ok.injEq, Prod.mk.injEq] at hstep
    obtain ⟨h1, h2⟩ := hstep
    subst h1
    refine ⟨rfl, rfl, rfl, rfl, rfl, rfl, [], by simp, by omega, ?_⟩
    intro hr
    refine ⟨hr, by simp, ?_⟩
    intro _
    simp [wsum_nil]

theorem draw_card_s_spec {s : TEnv} {g : List Nat} {c : Nat} {s2 : TEnv}
    {g2 : List Nat} (h : draw_card_s s g = Except.ok (c, s2, g2)) :
    s2.natural = s.natural ∧ s2.num_decks = s.num_decks ∧
    s2.shuffle_on = s.shuffle_on ∧
    s2.player_left = s.player_left ∧ s2.done_left = s.done_left ∧
    s2.reward_left = s.reward_left ∧
    s2.player_right = s.player_right ∧ s2.done_right = s.done_right ∧
    s2.reward_right = s.reward_right ∧ s2.dealer = s.dealer ∧
    s2.split_possible = s.split_possible ∧ s2.action_n = s.action_n ∧
    s2.np_random = s.np_random ∧ g2.length < g.length ∧
    (deck_in_range s.deck → (1 ≤ c ∧ c ≤ 10) ∧ deck_in_range s2.deck) := by
  simp only [draw_card_s] at h
  cases hpre : (if s.deck.length < s.shuffle_on then reshuffle_split s
                else Except.ok s) with
  | error e => rw [hpre] at h; simp at h
  | ok s1 =>
    rw [hpre] at h
    simp only at h
    have h1 : s1.natural = s.natural ∧ s1.num_decks = s.num_decks ∧
        s1.shuffle_on = s.shuffle_on ∧
        s1.player_left = s.player_left ∧ s1.done_left = s.done_left ∧
        s1.reward_left = s.reward_left ∧
        s1.player_right = s.player_right ∧ s1.done_right = s.done_right ∧
        s1.reward_right = s.reward_right ∧ s1.dealer = s.dealer ∧
        s1.split_possible = s.split_possible ∧ s1.action_n = s.action_n ∧
        s1.np_random = s.np_random ∧
        (deck_in_range s.deck → deck_in_range s1.deck) := by
      split at hpre
      · obtain ⟨a1, a2, a3, a4, a5, a6, a7, a8, a9, a10, a11, a12, a13, hr, -⟩ :=
          reshuffle_split_spec hpre
        exact ⟨a1, a2, a3, a4, a5, a6, a7, a8, a9, a10, a11, a12, a13,
          fun _ => hr⟩
      · simp only [Except.ok.injEq] at hpre
        subst hpre
        exact ⟨rfl, rfl, rfl, rfl, rfl, rfl, rfl, rfl, rfl, rfl, rfl, rfl, rfl,
          fun hr => hr⟩
    obtain ⟨f1, f2, f3, f4, f5, f6, f7, f8, f9, f10, f11, f12, f13, f14⟩ := h1
    cases g with
    | nil => simp at h
    | cons i g1 =>
      simp only at h
      split at h
      · simp at h
      case isFalse hlen =>
        simp only [Except.ok.injEq, Prod.mk.injEq] at h
        obtain ⟨hc, hs2, hg2⟩ := h
        subst hs2; subst hg2
        have hmem : c ∈ s1.deck := by
          rw [← hc]
          exact s1.deck.get_mem _ _
        refine ⟨f1, f2, f3, f4, f5, f6, f7, f8, f9, f10, f11, f12, f13,
          by simp, ?_⟩
        intro hr
        have hr1 := f14 hr
        exact ⟨hr1 c hmem, eraseIdx_range hr1 _⟩

theorem draw_card_s_no_shuffle {s : TEnv} {g : List Nat} {c : Nat} {s2 : TEnv}
    {g2 : List Nat} (hns : s.shuffle_on ≤ s.deck.length)
    (h : draw_card_s s g = Except.ok (c, s2, g2)) :
    s2.count = s.count ∧ s2.deck.length + 1 = s.deck.length ∧ c ∈ s.deck := by
  simp only [draw_card_s] at h
  rw [if_neg (by omega)] at h
  simp only at h
  cases g with
  | nil => simp at h
  | cons i g1 =>
    simp only at h
    split at h
    · simp at h
    case isFalse hlen =>
      simp only [Except.ok.injEq, Prod.mk.injEq] at h
      obtain ⟨hc, hs2, hg2⟩ := h
      subst hs2
      have hmem : c ∈ s.deck := by
        rw [← hc]
        exact s.deck.get_mem _ _
      refine ⟨rfl, ?_, hmem⟩
      have : i % s.deck.length < s.deck.length :=
        Nat.mod_lt i (Nat.pos_of_ne_zero hlen)
      simp only [List.length_eraseIdx, if_pos this]
      omega

theorem dealer_loop_s_spec :
    ∀ (s : TEnv) (g : List Nat) (s2 : TEnv) (g2 : List Nat),
      dealer_loop_s s g = Except.ok (s2, g2) →
      s2.natural = s.natural ∧ s2.num_decks = s.num_decks ∧
      s2.shuffle_on = s.shuffle_on ∧
      s2.player_left = s.player_left ∧ s2.done_left = s.done_left ∧
      s2.reward_left = s.reward_left ∧
      s2.player_right = s.player_right ∧ s2.done_right = s.done_right ∧
      s2.reward_right = s.reward_right ∧
      s2.split_possible = s.split_possible ∧ s2.action_n = s.action_n ∧
      s2.np_random = s.np_random ∧
      ∃ extra, s2.dealer = s.dealer ++ extra ∧ 17 ≤ sum_hand s2.dealer ∧
        (deck_in_range s.deck →
          deck_in_range s2.deck ∧ extra.length ≤ 17 - s.dealer.sum ∧
          (s.shuffle_on + (17 - s.dealer.sum) ≤ s.deck.length →
            s2.count = s.count + wsum extra ∧
            s2.deck.length + extra.length = s.deck.length)) := by
  intro s g
  induction s, g using dealer_loop_s.induct with
  | case1 s g hlt e hdraw =>
    intro s2 g2 hstep
    rw [dealer_loop_s] at hstep
    rw [if_pos hlt] at hstep
    split at hstep
    · simp at hstep
    case h_2 c sd gd heq =>
      rw [hdraw] at heq
      simp at heq
  | case2 s g hlt c sd gd hdraw ih =>
    intro s2 g2 hstep
    rw [dealer_loop_s] at hstep
    rw [if_pos hlt] at hstep
    split at hstep
    case h_1 e heq =>
      rw [hdraw] at heq
      simp at heq
    case h_2 c2 sd2 gd2 heq =>
      rw [hdraw] at heq
      simp only [Except.ok.injEq, Prod.mk.injEq] at heq
      obtain ⟨hceq, hsdeq, hgdeq⟩ := heq
      subst hceq; subst hsdeq; subst hgdeq
      obtain ⟨f1, f2, f3, f4, f5, f6, f7, f8, f9, f10, f11, f12, f13, -, f15⟩ :=
        draw_card_s_spec hdraw
      have ih2 := ih s2 g2 hstep
      simp only at ih2
      obtain ⟨e1, e2, e3, e4, e5, e6, e7, e8, e9, e10, e11, e12, extra, he,
        hsum, hrest⟩ := ih2
      refine ⟨e1.trans f1, e2.trans f2, e3.trans f3, e4.trans f4, e5.trans f5,
        e6.trans f6, e7.trans f7, e8.trans f8, e9.trans f9, e10.trans f11,
        e11.trans f12, e12.trans f13, c :: extra, ?_, hsum, ?_⟩
      · rw [he, f10]; simp
      · intro hr
        obtain ⟨⟨hc1, hc10⟩, hrd⟩ := f15 hr
        have hsle := sum_le_sum_hand s.dealer
        have hdsum : s.dealer.sum ≤ 16 := by omega
        obtain ⟨hr2, hlen2, hcount2⟩ := hrest hrd
        have hsum_c : (sd.dealer ++ [c]).sum = s.dealer.sum + c := by
          rw [f10]; simp
        refine ⟨hr2, ?_, ?_⟩
        · rw [hsum_c] at hlen2
          simp only [List.length_cons]
          omega
        · intro hmargin
          have hnos : s.shuffle_on ≤ s.deck.length := by omega
          obtain ⟨hcnt, hlen, -⟩ := draw_card_s_no_shuffle hnos hdraw
          have hmargin2 : sd.shuffle_on + (17 - (sd.dealer ++ [c]).sum) ≤
              sd.deck.length := by
            rw [hsum_c, f3]
            omega
          obtain ⟨hcc, hll⟩ := hcount2 hmargin2
          constructor
          · rw [hcc, hcnt, wsum_cons]; ring
          · simp only [List.length_cons]
            omega
  | case3 s g hge =>
    intro s2 g2 hstep
    rw [dealer_loop_s] at hstep
    rw [if_neg hge] at hstep
    simp only [Except.ok.injEq, Prod.mk.injEq] at hstep
    obtain ⟨h1, h2⟩ := hstep
    subst h1
    refine ⟨rfl, rfl, rfl, rfl, rfl, rfl, rfl, rfl, rfl, rfl, rfl, rfl, [],
      by simp, by omega, ?_⟩
    intro hr
    refine ⟨hr, by simp, ?_⟩
    intro _
    simp [wsum_nil]


/-! ## Claim theorems -/

set_option maxRecDepth 40000

/-- C8: for every hand, `usable_ace(hand)` holds iff an ace (rank 1) is
present and the raw rank sum plus 10 is at most 21, and `sum_hand(hand)`
equals the raw sum plus 10 exactly when the ace is usable, else the raw
sum. -/
theorem c8_hand_evaluation (hand : List Nat) :
    ((usable_ace hand = true) ↔ (1 ∈ hand ∧ hand.sum + 10 ≤ 21)) ∧
    sum_hand hand = (if usable_ace hand then hand.sum + 10 else hand.sum) := by
  constructor
  · simp [usable_ace]
  · rfl

/-- C7: in both environments, `step` opens with
`assert self.action_space.contains(action)`: an action code outside the
legal set raises immediately and the error state is exactly the input
state — nothing (shoe, hands, counter, flags, rewards) has been mutated. -/
theorem c7_assert_first :
    (∀ (s : SEnv) (a : Int) (g : List Nat), illegal_action3 a →
      step s a g = Except.error s) ∧
    (∀ (s : TEnv) (a : Int) (g : List Nat), illegal_action s.action_n a →
      step_s s a g = Except.error s) := by
  constructor
  · intro s a g h
    rw [step, if_pos h]
  · intro s a g h
    rw [step_s, if_pos h]

/-- C7 witness: action 5 on a fresh single environment and action 9 on a
fresh split environment are rejected with the state unchanged. -/
theorem c7_assert_first_witness :
    illegal_action3 5 ∧
    step (init_single 1 15 false []) 5 [] =
      Except.error (init_single 1 15 false []) ∧
    illegal_action (init_split 1 15 false []).action_n 9 ∧
    step_s (init_split 1 15 false []) 9 [] =
      Except.error (init_split 1 15 false []) :=
  ⟨by decide, c7_assert_first.1 _ 5 [] (by decide),
   by decide, c7_assert_first.2 _ 9 [] (by decide)⟩

/-- C4: the claim that identically seeded instances reproduce identical
draw sequences is false on the code: `draw_card` ignores the seeded
`self.np_random` entirely and draws from the global `np.random` stream, so
the same instance state (same seeded stream `[7]`) yields different cards
for different global-stream states, while the seeded stream is never even
consumed. -/
theorem c4_draws_use_global_rng_not_seed :
    cardOfDrawS (draw_card c4_env [0]) ≠ cardOfDrawS (draw_card c4_env [1]) ∧
    (envOfDrawS (draw_card c4_env [0])).np_random = c4_env.np_random ∧
    (envOfDrawS (draw_card c4_env [1])).np_random = c4_env.np_random := by
  refine ⟨?_, ?_, ?_⟩ <;> with_unfolding_all decide

/-- C3: doubling from `c3_env` (player `[10, 9]`, dealer `[5, 10]`) with a
drawn 10 busts the player: the round is terminal with reward -2 and exactly
one card was drawn, as the claim states, but the dealer hole card's weight
is added twice (count goes to -3 = w(10) + 2 * w(10), not to
-2 = w(10) + w(10)), contradicting the count-once contract. -/
theorem c3_double_bust_counts_hole_twice :
    step c3_env 2 [9] =
      Except.ok (((29, 5, false, -3), -2, true), c3_out, []) ∧
    c3_out.player = [10, 9, 10] ∧ c3_out.done = true ∧
    c3_out.count = c3_env.count + halves 10 + halves 10 + halves 10 ∧
    c3_out.count ≠ c3_env.count + halves 10 + halves 10 := by
  refine ⟨?_, ?_, ?_, ?_, ?_⟩
  · with_unfolding_all rfl
  · with_unfolding_all rfl
  · rfl
  · with_unfolding_all decide
  · with_unfolding_all decide

/-- C2: the claim (and the source's own comment) says the dealer is played
out and the left reward settled exactly when the left hand did not bust;
the code tests `reward_left < -1e-5`, the opposite.  Concretely: left stood
on `[10, 9]` = 19 (not bust, reward 0), right `[10, 5]` hits a 10 and busts;
the hole card is counted and the round ends, but the dealer hand stays
`[7, 8]` (sum 15 < 17: never played out) and the left reward stays 0
instead of `cmp(19, dealer)`. -/
theorem c2_right_bust_dealer_playout_inverted :
    is_bust c2_env.player_left = false ∧
    step_s c2_env 1 [9] =
      Except.ok (((19, false, 25, false, 7, false, -1), -1, true), c2_out, []) ∧
    c2_out.done_right = true ∧ c2_out.reward_right = -1 ∧
    c2_out.dealer = [7, 8] ∧ sum_hand c2_out.dealer < 17 ∧
    c2_out.reward_left = 0 := by
  refine ⟨?_, ?_, ?_, ?_, ?_, ?_, ?_⟩
  · with_unfolding_all decide
  · with_unfolding_all rfl
  · with_unfolding_all rfl
  · with_unfolding_all decide
  · with_unfolding_all rfl
  · with_unfolding_all decide
  · with_unfolding_all decide


/-- C10: in the split variant, once both hands are terminal, a legal call
of `step` with action 0, 1 or 2 falls through every branch: the state is
returned exactly unchanged together with its observation, the summed
reward `reward_left + reward_right`, and terminal `true`. -/
theorem c10_step_after_terminal_noop :
    ∀ (s : TEnv) (a : Int) (g : List Nat)
      (o : Nat × Bool × Nat × Bool × Nat × Bool × ℚ),
      s.done_left = true → s.done_right = true →
      (a = 0 ∨ a = 1 ∨ a = 2) → (0 ≤ a ∧ a < (s.action_n : Int)) →
      get_obs_s s = Except.ok o →
      step_s s a g =
        Except.ok ((o, s.reward_left + s.reward_right, true), s, g) := by
  intro s a g o hL hR ha hn hobs
  rcases ha with rfl | rfl | rfl <;>
    simp [step_s, step_stand_s, step_hit_s, step_double_s, hL, hR, hobs,
      if_neg (not_not_intro hn)] <;>
    (obtain ⟨h1, h2⟩ := hn; omega)

/-- C10 witness: hitting the concrete both-terminal state `c10_env` leaves
it untouched and returns its observation, summed reward 0 and terminal. -/
theorem c10_step_after_terminal_noop_witness :
    c10_env.done_left = true ∧ c10_env.done_right = true ∧
    ((1 : Int) = 0 ∨ (1 : Int) = 1 ∨ (1 : Int) = 2) ∧
    (0 ≤ (1 : Int) ∧ (1 : Int) < (c10_env.action_n : Int)) ∧
    get_obs_s c10_env = Except.ok c10_obs ∧
    step_s c10_env 1 [4, 5] =
      Except.ok ((c10_obs, c10_env.reward_left + c10_env.reward_right, true),
        c10_env, [4, 5]) :=
  ⟨rfl, rfl, Or.inr (Or.inl rfl), by decide,
   by with_unfolding_all rfl,
   c10_step_after_terminal_noop c10_env 1 [4, 5] c10_obs rfl rfl
     (Or.inr (Or.inl rfl)) (by decide) (by with_unfolding_all rfl)⟩


/-- C9: a STAND in the single variant always terminates: the dealer loop
adds at most 17 cards, ends with a dealer total of at least 17, and the
returned reward is the three-way comparison of the player's score with the
final dealer score, overridden to 1.5 when the natural flag is on, the
player holds a natural, and the comparison is a win. -/
theorem c9_stand_terminates_with_comparison :
    ∀ (s : SEnv) (g : List Nat) (o : Nat × Nat × Bool × ℚ) (r : ℚ) (d : Bool)
      (s2 : SEnv) (g2 : List Nat),
      deck_in_range s.deck →
      step s 0 g = Except.ok ((o, r, d), s2, g2) →
      d = true ∧ s2.player = s.player ∧
      (∃ extra, s2.dealer = s.dealer ++ extra ∧ extra.length ≤ 17) ∧
      17 ≤ sum_hand s2.dealer ∧
      r = (if s.natural && is_natural s.player &&
             (cmp (score s.player) (score s2.dealer) == 1)
           then 3/2 else cmp (score s.player) (score s2.dealer)) := by
  intro s g o r d s2 g2 hrange h
  rw [step] at h
  rw [if_neg (by decide), if_neg (by decide), if_pos rfl] at h
  cases hst : step_stand s g with
  | error e => rw [hst] at h; simp at h
  | ok v =>
    obtain ⟨r1, s1, g1⟩ := v
    rw [hst] at h
    simp only at h
    cases hob : get_obs s1 with
    | error e => rw [hob] at h; simp at h
    | ok o1 =>
      rw [hob] at h
      simp only [Except.ok.injEq, Prod.mk.injEq] at h
      obtain ⟨⟨ho, hr1, hd⟩, hs2, hg2⟩ := h
      subst hs2
      subst hr1
      subst hd
      simp only [step_stand, idxE] at hst
      split at hst
      case h_1 => simp at hst
      case h_2 =>
        rename_i hidx_res d1 hidx
        split at hst
        case h_1 => simp at hst
        case h_2 =>
          rename_i s3 g3 heq
          simp only [Except.ok.injEq, Prod.mk.injEq] at hst
          obtain ⟨hrr, hs3, hg3⟩ := hst
          subst hs3
          obtain ⟨e1, e2, e3, e4, e5, e6, extra, he, hsum, hrest⟩ :=
            dealer_loop_spec _ _ _ _ heq
          simp only at e1 e2 e3 e4 e5 e6 he hrest
          obtain ⟨-, hbound, -⟩ := hrest hrange
          refine ⟨e4, e5, ⟨extra, he, by omega⟩, hsum, ?_⟩
          rw [← hrr]
          simp [e1, e5, Bool.and_eq_true, beq_iff_eq]
  
/-- C9 witness: standing on `c9_env` (player `[10, 9]`, dealer `[10, 6]`)
makes the dealer draw one card (an ace, reaching 17) and pays +1. -/
theorem c9_stand_terminates_witness :
    deck_in_range c9_env.deck ∧
    (step c9_env 0 [0] = Except.ok (((19, 10, false, 0), 1, true),
      outS (step c9_env 0 [0]), []) ∧
    (outS (step c9_env 0 [0])).dealer = [10, 6, 1]) ∧
    (outS (step c9_env 0 [0])).player = c9_env.player ∧
    17 ≤ sum_hand (outS (step c9_env 0 [0])).dealer := by
  refine ⟨by decide, ⟨?_, ?_⟩, ?_, ?_⟩
  · with_unfolding_all rfl
  · with_unfolding_all rfl
  · exact (c9_stand_terminates_with_comparison c9_env [0] (19, 10, false, 0) 1
      true (outS (step c9_env 0 [0])) [] (by decide)
      (by with_unfolding_all rfl)).2.1
  · exact (c9_stand_terminates_with_comparison c9_env [0] (19, 10, false, 0) 1
      true (outS (step c9_env 0 [0])) [] (by decide)
      (by with_unfolding_all rfl)).2.2.2.1


/-- C6: doubling the right hand (left terminal, right live) draws exactly
one card into the right hand, ends the right hand, always plays out the
dealer to a total of at least 17, and sets BOTH rewards to twice the
comparator of the respective hand against the final dealer hand; when no
reshuffle can fire during the step (deck at least 18 cards above the
threshold) the counter gains the drawn card's weight, the hole card
`dealer[1]`'s weight, and the weights of the dealer's extra cards. -/
theorem c6_double_right_spec :
    ∀ (s : TEnv) (g : List Nat) (o : Nat × Bool × Nat × Bool × Nat × Bool × ℚ)
      (r : ℚ) (d : Bool) (s2 : TEnv) (g2 : List Nat),
      s.done_left = true → s.done_right = false →
      step_s s 2 g = Except.ok ((o, r, d), s2, g2) →
      ∃ c extra, s2.player_right = s.player_right ++ [c] ∧
        s2.done_right = true ∧ s2.player_left = s.player_left ∧
        s2.dealer = s.dealer ++ extra ∧ 17 ≤ sum_hand s2.dealer ∧
        s2.reward_left = 2 * cmp (score s.player_left) (score s2.dealer) ∧
        s2.reward_right =
          2 * cmp (score (s.player_right ++ [c])) (score s2.dealer) ∧
        (deck_in_range s.deck → s.shuffle_on + 18 ≤ s.deck.length →
          s2.count = s.count + halves c + halves (s.dealer.getD 1 0) +
            wsum extra) := by
  intro s g o r d s2 g2 hL hR h
  rw [step_s] at h
  by_cases hn : (0 ≤ (2 : Int) ∧ (2 : Int) < (s.action_n : Int))
  case neg => rw [if_pos hn] at h; simp at h
  case pos =>
  rw [if_neg (not_not_intro hn)] at h
  rw [if_neg (by decide), if_neg (by decide), if_pos rfl] at h
  cases hsd : step_double_s s g with
  | error e => rw [hsd] at h; simp at h
  | ok v =>
    obtain ⟨s1, g1⟩ := v
    rw [hsd] at h
    simp only at h
    cases hob : get_obs_s s1 with
    | error e => rw [hob] at h; simp at h
    | ok o1 =>
      rw [hob] at h
      simp only [Except.ok.injEq, Prod.mk.injEq] at h
      obtain ⟨-, hs2, hg2⟩ := h
      subst hs2
      simp only [step_double_s, idxE] at hsd
      rw [if_neg (by simp [hL]), if_pos hR] at hsd
      cases hdr : draw_card_s s g with
      | error e => rw [hdr] at hsd; simp at hsd
      | ok v2 =>
        obtain ⟨c, sd, gd⟩ := v2
        rw [hdr] at hsd
        simp only at hsd
        obtain ⟨f1, f2, f3, f4, f5, f6, f7, f8, f9, f10, f11, f12, f13, -, f15⟩ :=
          draw_card_s_spec hdr
        simp only [apply_ite TEnv.natural, apply_ite TEnv.num_decks,
          apply_ite TEnv.shuffle_on, apply_ite TEnv.deck,
          apply_ite TEnv.count, apply_ite TEnv.player_left,
          apply_ite TEnv.done_left, apply_ite TEnv.reward_left,
          apply_ite TEnv.player_right, apply_ite TEnv.done_right,
          apply_ite TEnv.split_possible, apply_ite TEnv.action_n,
          apply_ite TEnv.np_random, apply_ite TEnv.dealer, ite_self] at hsd
        split at hsd
        case h_1 => simp at hsd
        case h_2 =>
          rename_i hole_res d1 hidx
          split at hsd
          case h_1 => simp at hsd
          case h_2 =>
            rename_i s3 g3 heq
            simp only [Except.ok.injEq, Prod.mk.injEq] at hsd
            obtain ⟨hs1, hg1⟩ := hsd
            subst hs1
            obtain ⟨e1, e2, e3, e4, e5, e6, e7, e8, e9, e10, e11, e12,
              extra, he, hsum, hrest⟩ := dealer_loop_s_spec _ _ _ _ heq
            simp only at e1 e2 e3 e4 e5 e6 e7 e8 e9 e10 e11 e12 he hrest
            have hd1 : s.dealer[1]? = some d1 := by
              rw [← f10]
              cases hx : sd.dealer[1]? with
              | none => rw [hx] at hidx; simp at hidx
              | some v =>
                rw [hx] at hidx
                simp only [Except.ok.injEq] at hidx
                rw [hidx]
            refine ⟨c, extra, ?_, ?_, ?_, ?_, hsum, ?_, ?_, ?_⟩
            · simp only [e7, f7]
            · simp only [e8]
            · simp only [e4, f4]
            · simp only [he, f10]
            · simp only [e4, f4, he]
            · simp only [e7, f7, he]
            · intro hrng hmargin
              obtain ⟨hcnt, hlen, -⟩ :=
                draw_card_s_no_shuffle (by omega) hdr
              obtain ⟨-, hrd⟩ := f15 hrng
              obtain ⟨-, -, hcount⟩ := hrest hrd
              obtain ⟨hcc, -⟩ := hcount (by
                rw [f3, f10]
                have : 17 - s.dealer.sum ≤ 17 := by omega
                omega)
              simp only [hcc, hcnt]
              rw [List.getD_eq_getElem?_getD, hd1]
              simp only [Option.getD_some]


/-- C6 witness: doubling the right hand of `c6_env` draws an ace, plays the
dealer out to `[10, 6, 2]` = 18, and pays `2 * cmp(19, 18) = 2` on the left
and `2 * cmp(12, 18) = -2` on the right. -/
theorem c6_double_right_witness :
    c6_env.done_left = true ∧ c6_env.done_right = false ∧
    step_s c6_env 2 [0, 0] =
      Except.ok (((19, false, 12, false, 10, false, 1/2), 0, true),
        outT c6_ret, []) ∧
    (∃ c extra, (outT c6_ret).player_right = c6_env.player_right ++ [c] ∧
      (outT c6_ret).done_right = true ∧
      (outT c6_ret).player_left = c6_env.player_left ∧
      (outT c6_ret).dealer = c6_env.dealer ++ extra ∧
      17 ≤ sum_hand (outT c6_ret).dealer ∧
      (outT c6_ret).reward_left =
        2 * cmp (score c6_env.player_left) (score (outT c6_ret).dealer) ∧
      (outT c6_ret).reward_right =
        2 * cmp (score (c6_env.player_right ++ [c]))
          (score (outT c6_ret).dealer) ∧
      (deck_in_range c6_env.deck → c6_env.shuffle_on + 18 ≤ c6_env.deck.length →
        (outT c6_ret).count = c6_env.count + halves c +
          halves (c6_env.dealer.getD 1 0) +
          wsum ((outT c6_ret).dealer.drop c6_env.dealer.length))) := by
  refine ⟨rfl, rfl, ?_, ?_⟩
  · with_unfolding_all rfl
  · obtain ⟨c, extra, h1, h2, h3, h4, h5, h6, h7, h8⟩ :=
      c6_double_right_spec c6_env [0, 0] (19, false, 12, false, 10, false, 1/2)
        0 true (outT c6_ret) [] rfl rfl (by with_unfolding_all rfl)
    refine ⟨c, extra, h1, h2, h3, h4, h5, h6, h7, ?_⟩
    intro hrng hmargin
    rw [h4, List.drop_left]
    exact h8 hrng hmargin


theorem step_hit_s_split_possible (s : TEnv) (g : List Nat) (s2 : TEnv)
    (g2 : List Nat) (h : step_hit_s s g = Except.ok (s2, g2)) :
    s2.split_possible = s.split_possible := by
  simp only [step_hit_s, idxE] at h
  split at h
  · cases hdr : draw_card_s s g with
    | error e => rw [hdr] at h; simp at h
    | ok v =>
      obtain ⟨c, sd, gd⟩ := v
      rw [hdr] at h
      simp only at h
      have f11 := (draw_card_s_spec hdr).2.2.2.2.2.2.2.2.2.2.1
      split at h
      · split at h
        · split at h
          case h_1 => simp at h
          case h_2 =>
            simp only [Except.ok.injEq, Prod.mk.injEq] at h
            obtain ⟨h1, -⟩ := h
            subst h1
            simpa using f11
        · simp only [Except.ok.injEq, Prod.mk.injEq] at h
          obtain ⟨h1, -⟩ := h
          subst h1
          simpa using f11
      · simp only [Except.ok.injEq, Prod.mk.injEq] at h
        obtain ⟨h1, -⟩ := h
        subst h1
        simpa using f11
  · split at h
    · cases hdr : draw_card_s s g with
      | error e => rw [hdr] at h; simp at h
      | ok v =>
        obtain ⟨c, sd, gd⟩ := v
        rw [hdr] at h
        simp only at h
        have f11 := (draw_card_s_spec hdr).2.2.2.2.2.2.2.2.2.2.1
        split at h
        · split at h
          case h_1 => simp at h
          case h_2 =>
            rename_i hole_res d1 hidx
            split at h
            · split at h
              case h_1 => simp at h
              case h_2 =>
                rename_i s3 g3 heq
                have e10 := (dealer_loop_s_spec _ _ _ _ heq).2.2.2.2.2.2.2.2.2.1
                simp only at e10
                simp only [Except.ok.injEq, Prod.mk.injEq] at h
                obtain ⟨h1, -⟩ := h
                subst h1
                simp only
                rw [e10]
                simpa using f11
            · simp only [Except.ok.injEq, Prod.mk.injEq] at h
              obtain ⟨h1, -⟩ := h
              subst h1
              simpa using f11
        · simp only [Except.ok.injEq, Prod.mk.injEq] at h
          obtain ⟨h1, -⟩ := h
          subst h1
          simpa using f11
    · simp only [Except.ok.injEq, Prod.mk.injEq] at h
      obtain ⟨h1, -⟩ := h
      subst h1
      rfl


theorem step_stand_s_split_possible (s : TEnv) (g : List Nat) (s2 : TEnv)
    (g2 : List Nat) (h : step_stand_s s g = Except.ok (s2, g2)) :
    s2.split_possible = s.split_possible := by
  simp only [step_stand_s, idxE] at h
  split at h
  · split at h
    · split at h
      case h_1 => simp at h
      case h_2 =>
        rename_i hole_res d1 hidx
        split at h
        case h_1 => simp at h
        case h_2 =>
          rename_i s3 g3 heq
          have e10 := (dealer_loop_s_spec _ _ _ _ heq).2.2.2.2.2.2.2.2.2.1
          simp only at e10
          simp only [Except.ok.injEq, Prod.mk.injEq] at h
          obtain ⟨h1, -⟩ := h
          subst h1
          simpa using e10
    · simp only [Except.ok.injEq, Prod.mk.injEq] at h
      obtain ⟨h1, -⟩ := h
      subst h1
      rfl
  · split at h
    · split at h
      case h_1 => simp at h
      case h_2 =>
        rename_i hole_res d1 hidx
        split at h
        case h_1 => simp at h
        case h_2 =>
          rename_i s3 g3 heq
          have e10 := (dealer_loop_s_spec _ _ _ _ heq).2.2.2.2.2.2.2.2.2.1
          simp only at e10
          simp only [Except.ok.injEq, Prod.mk.injEq] at h
          obtain ⟨h1, -⟩ := h
          subst h1
          simpa using e10
    · simp only [Except.ok.injEq, Prod.mk.injEq] at h
      obtain ⟨h1, -⟩ := h
      subst h1
      rfl

theorem step_double_s_split_possible (s : TEnv) (g : List Nat) (s2 : TEnv)
    (g2 : List Nat) (h : step_double_s s g = Except.ok (s2, g2)) :
    s2.split_possible = s.split_possible := by
  simp only [step_double_s, idxE] at h
  split at h
  · cases hdr : draw_card_s s g with
    | error e => rw [hdr] at h; simp at h
    | ok v =>
      obtain ⟨c, sd, gd⟩ := v
      rw [hdr] at h
      simp only at h
      have f11 := (draw_card_s_spec hdr).2.2.2.2.2.2.2.2.2.2.1
      simp only [apply_ite TEnv.natural, apply_ite TEnv.num_decks,
        apply_ite TEnv.shuffle_on, apply_ite TEnv.deck,
        apply_ite TEnv.count, apply_ite TEnv.player_left,
        apply_ite TEnv.done_left, apply_ite TEnv.reward_right,
        apply_ite TEnv.player_right, apply_ite TEnv.done_right,
        apply_ite TEnv.split_possible, apply_ite TEnv.action_n,
        apply_ite TEnv.np_random, apply_ite TEnv.dealer, ite_self] at h
      split at h
      · split at h
        case h_1 => simp at h
        case h_2 =>
          rename_i hole_res d1 hidx
          split at h
          case h_1 => simp at h
          case h_2 =>
            rename_i s3 g3 heq
            have e10 := (dealer_loop_s_spec _ _ _ _ heq).2.2.2.2.2.2.2.2.2.1
            simp only at e10
            simp only [Except.ok.injEq, Prod.mk.injEq] at h
            obtain ⟨h1, -⟩ := h
            subst h1
            simp only
            rw [e10]
            simpa using f11
      · simp only [Except.ok.injEq, Prod.mk.injEq] at h
        obtain ⟨h1, -⟩ := h
        subst h1
        simp only [apply_ite TEnv.split_possible, ite_self]
        simpa using f11
  · split at h
    · cases hdr : draw_card_s s g with
      | error e => rw [hdr] at h; simp at h
      | ok v =>
        obtain ⟨c, sd, gd⟩ := v
        rw [hdr] at h
        simp only at h
        have f11 := (draw_card_s_spec hdr).2.2.2.2.2.2.2.2.2.2.1
        simp only [apply_ite TEnv.natural, apply_ite TEnv.num_decks,
          apply_ite TEnv.shuffle_on, apply_ite TEnv.deck,
          apply_ite TEnv.count, apply_ite TEnv.player_left,
          apply_ite TEnv.done_left, apply_ite TEnv.reward_left,
          apply_ite TEnv.player_right, apply_ite TEnv.done_right,
          apply_ite TEnv.split_possible, apply_ite TEnv.action_n,
          apply_ite TEnv.np_random, apply_ite TEnv.dealer, ite_self] at h
        split at h
        case h_1 => simp at h
        case h_2 =>
          rename_i hole_res d1 hidx
          split at h
          case h_1 => simp at h
          case h_2 =>
            rename_i s3 g3 heq
            have e10 := (dealer_loop_s_spec _ _ _ _ heq).2.2.2.2.2.2.2.2.2.1
            simp only at e10
            simp only [Except.ok.injEq, Prod.mk.injEq] at h
            obtain ⟨h1, -⟩ := h
            subst h1
            simp only
            rw [e10]
            simpa using f11
    · simp only [Except.ok.injEq, Prod.mk.injEq] at h
      obtain ⟨h1, -⟩ := h
      subst h1
      rfl


theorem draw_hand_s_len {s : TEnv} {g : List Nat}
    {v : List Nat × TEnv × List Nat}
    (h : draw_hand_s s g = Except.ok v) : v.1.length = 2 := by
  simp only [draw_hand_s] at h
  cases h1 : draw_card_s s g with
  | error e => rw [h1] at h; simp at h
  | ok v1 =>
    obtain ⟨c1, s1, g1⟩ := v1
    rw [h1] at h
    simp only at h
    cases h2 : draw_card_s s1 g1 with
    | error e => rw [h2] at h; simp at h
    | ok v2 =>
      obtain ⟨c2, sx, gx⟩ := v2
      rw [h2] at h
      simp only [Except.ok.injEq] at h
      rw [← h]
      rfl

theorem step_split_s_clears (s : TEnv) (g : List Nat) (s2 : TEnv)
    (g2 : List Nat) (h : step_split_s s g = Except.ok (s2, g2)) :
    s2.split_possible = false := by
  simp only [step_split_s] at h
  split at h
  · simp at h
  · cases hdr : draw_card_s _ _ with
    | error e => rw [hdr] at h; simp at h
    | ok v =>
      obtain ⟨c, sd, gd⟩ := v
      rw [hdr] at h
      simp only at h
      cases hdr2 : draw_card_s _ _ with
      | error e => rw [hdr2] at h; simp at h
      | ok v2 =>
        obtain ⟨c2, sd2, gd2⟩ := v2
        rw [hdr2] at h
        simp only [Except.ok.injEq, Prod.mk.injEq] at h
        obtain ⟨h1, -⟩ := h
        subst h1
        rfl


/-- C5 (amended): `reset` computes a fresh two-card left hand and sets
`split_possible` exactly to whether its two cards have equal rank; the
SPLIT action sets the flag to false; HIT, STAND and DOUBLE leave the flag
unchanged — so, contrary to the original claim, the flag can stay true
after actions until a SPLIT or the next reset. -/
theorem c5_split_possible_amended :
    (∀ (s : TEnv) (g : List Nat) (o : Nat × Bool × Nat × Bool × Nat × Bool × ℚ)
       (s2 : TEnv) (g2 : List Nat),
       reset_s s g = Except.ok (o, s2, g2) →
       s2.player_left.length = 2 ∧
       s2.split_possible =
         decide (s2.player_left.getD 0 0 = s2.player_left.getD 1 0)) ∧
    (∀ (s : TEnv) (g : List Nat) (o : Nat × Bool × Nat × Bool × Nat × Bool × ℚ)
       (r : ℚ) (d : Bool) (s2 : TEnv) (g2 : List Nat),
       step_s s 3 g = Except.ok ((o, r, d), s2, g2) →
       s2.split_possible = false) ∧
    (∀ (s : TEnv) (a : Int) (g : List Nat)
       (o : Nat × Bool × Nat × Bool × Nat × Bool × ℚ)
       (r : ℚ) (d : Bool) (s2 : TEnv) (g2 : List Nat),
       (a = 0 ∨ a = 1 ∨ a = 2) →
       step_s s a g = Except.ok ((o, r, d), s2, g2) →
       s2.split_possible = s.split_possible) := by
  refine ⟨?_, ?_, ?_⟩
  · intro s g o s2 g2 h
    simp only [reset_s, idxE] at h
    split at h
    all_goals try exact absurd h (by simp)
    rename_i dealerHand sA gA hDH1
    split at h
    all_goals try exact absurd h (by simp)
    rename_i hole0 d0 hIdx0
    split at h
    all_goals try exact absurd h (by simp)
    rename_i pl sB gB hDH2
    split at h
    all_goals try exact absurd h (by simp)
    rename_i p0r p1r p0 p1 hp0e hp1e
    have hlen : pl.length = 2 := by simpa using draw_hand_s_len hDH2
    have hpl0 : pl[0]? = some p0 := by
      cases hx : pl[0]? with
      | none => rw [hx] at hp0e; simp at hp0e
      | some v =>
        rw [hx] at hp0e
        simp only [Except.ok.injEq] at hp0e
        rw [hp0e]
    have hpl1 : pl[1]? = some p1 := by
      cases hx : pl[1]? with
      | none => rw [hx] at hp1e; simp at hp1e
      | some v =>
        rw [hx] at hp1e
        simp only [Except.ok.injEq] at hp1e
        rw [hp1e]
    split at h
    case h_1 => simp at h
    case h_2 =>
      simp only [Except.ok.injEq, Prod.mk.injEq] at h
      obtain ⟨-, hs2, -⟩ := h
      subst hs2
      by_cases hpe : p0 = p1
      · rw [if_pos hpe]
        constructor
        · simpa using hlen
        · simp only [List.getD_eq_getElem?_getD, hpl0, hpl1, Option.getD_some]
          simp [hpe]
      · rw [if_neg hpe]
        constructor
        · simpa using hlen
        · simp only [List.getD_eq_getElem?_getD, hpl0, hpl1, Option.getD_some]
          simp [hpe]
  · intro s g o r d s2 g2 h
    rw [step_s] at h
    by_cases hn : (0 ≤ (3 : Int) ∧ (3 : Int) < (s.action_n : Int))
    case neg => rw [if_pos hn] at h; simp at h
    case pos =>
    rw [if_neg (not_not_intro hn)] at h
    rw [if_neg (by decide), if_neg (by decide), if_neg (by decide),
      if_pos rfl] at h
    cases hb : step_split_s s g with
    | error e => rw [hb] at h; simp at h
    | ok v =>
      obtain ⟨sb, gb⟩ := v
      rw [hb] at h
      simp only at h
      cases hob : get_obs_s sb with
      | error e => rw [hob] at h; simp at h
      | ok o1 =>
        rw [hob] at h
        simp only [Except.ok.injEq, Prod.mk.injEq] at h
        obtain ⟨-, hs2, -⟩ := h
        subst hs2
        exact step_split_s_clears s g _ _ hb
  · intro s a g o r d s2 g2 ha h
    rw [step_s] at h
    by_cases hn : (0 ≤ a ∧ a < (s.action_n : Int))
    case neg => rw [if_pos hn] at h; simp at h
    case pos =>
    rw [if_neg (not_not_intro hn)] at h
    rcases ha with rfl | rfl | rfl
    · rw [if_neg (by decide), if_pos rfl] at h
      cases hb : step_stand_s s g with
      | error e => rw [hb] at h; simp at h
      | ok v =>
        obtain ⟨sb, gb⟩ := v
        rw [hb] at h
        simp only at h
        cases hob : get_obs_s sb with
        | error e => rw [hob] at h; simp at h
        | ok o1 =>
          rw [hob] at h
          simp only [Except.ok.injEq, Prod.mk.injEq] at h
          obtain ⟨-, hs2, -⟩ := h
          subst hs2
          exact step_stand_s_split_possible s g _ _ hb
    · rw [if_pos rfl] at h
      cases hb : step_hit_s s g with
      | error e => rw [hb] at h; simp at h
      | ok v =>
        obtain ⟨sb, gb⟩ := v
        rw [hb] at h
        simp only at h
        cases hob : get_obs_s sb with
        | error e => rw [hob] at h; simp at h
        | ok o1 =>
          rw [hob] at h
          simp only [Except.ok.injEq, Prod.mk.injEq] at h
          obtain ⟨-, hs2, -⟩ := h
          subst hs2
          exact step_hit_s_split_possible s g _ _ hb
    · rw [if_neg (by decide), if_neg (by decide), if_pos rfl] at h
      cases hb : step_double_s s g with
      | error e => rw [hb] at h; simp at h
      | ok v =>
        obtain ⟨sb, gb⟩ := v
        rw [hb] at h
        simp only at h
        cases hob : get_obs_s sb with
        | error e => rw [hob] at h; simp at h
        | ok o1 =>
          rw [hob] at h
          simp only [Except.ok.injEq, Prod.mk.injEq] at h
          obtain ⟨-, hs2, -⟩ := h
          subst hs2
          exact step_double_s_split_possible s g _ _ hb


/-- C5 counterexample: a reachable trace refuting the original claim.  One
deck, reset deals dealer `[1, 2]` and the pair `[8, 8]` (so the flag is
set), then a HIT draws a 3.  An action has been taken — the left hand has
three cards and is still live — yet `split_possible` is still true (and the
action space still has 4 actions), contradicting "after any action the flag
is false for the remainder of the round". -/
theorem c5_counterexample :
    run_split (init_split 1 15 false []) [0, 0, 5, 17, 0]
      [Act.res, Act.act 1] = Except.ok (c5_pre, []) ∧
    c5_pre.player_left = [8, 8, 3] ∧
    c5_pre.done_left = false ∧
    c5_pre.split_possible = true ∧
    c5_pre.action_n = 4 := by
  refine ⟨?_, ?_, ?_, ?_, ?_⟩ <;> with_unfolding_all rfl

/-- C5 witness: the three parts of the amended claim at concrete inputs:
a reset dealing `[8, 8]` sets the flag per the pair test; a SPLIT from that
state clears it; a HIT from that state leaves it unchanged. -/
theorem c5_split_possible_amended_witness :
    reset_s c5w_env [0, 0, 5, 17] =
      Except.ok (resetObsT (reset_s c5w_env [0, 0, 5, 17]), c5w_reset, []) ∧
    (c5w_reset.player_left.length = 2 ∧
     c5w_reset.split_possible =
       decide (c5w_reset.player_left.getD 0 0 = c5w_reset.player_left.getD 1 0)) ∧
    step_s c5w_reset 3 [0, 0] =
      Except.ok ((obsT (step_s c5w_reset 3 [0, 0]),
        rewT (step_s c5w_reset 3 [0, 0]), doneT (step_s c5w_reset 3 [0, 0])),
        c5w_split, []) ∧
    c5w_split.split_possible = false ∧
    step_s c5w_reset 1 [0] =
      Except.ok ((obsT (step_s c5w_reset 1 [0]), rewT (step_s c5w_reset 1 [0]),
        doneT (step_s c5w_reset 1 [0])), c5w_hit, []) ∧
    c5w_hit.split_possible = c5w_reset.split_possible := by
  refine ⟨?_, ?_, ?_, ?_, ?_, ?_⟩
  · with_unfolding_all rfl
  · exact c5_split_possible_amended.1 c5w_env [0, 0, 5, 17]
      (resetObsT (reset_s c5w_env [0, 0, 5, 17])) c5w_reset []
      (by with_unfolding_all rfl)
  · with_unfolding_all rfl
  · exact c5_split_possible_amended.2.1 c5w_reset [0, 0]
      (obsT (step_s c5w_reset 3 [0, 0])) (rewT (step_s c5w_reset 3 [0, 0]))
      (doneT (step_s c5w_reset 3 [0, 0])) c5w_split []
      (by with_unfolding_all rfl)
  · with_unfolding_all rfl
  · exact c5_split_possible_amended.2.2 c5w_reset 1 [0]
      (obsT (step_s c5w_reset 1 [0])) (rewT (step_s c5w_reset 1 [0]))
      (doneT (step_s c5w_reset 1 [0])) c5w_hit []
      (Or.inr (Or.inl rfl)) (by with_unfolding_all rfl)


/-- C1 (amended): the reshuffle correction is count-neutral for every
pre-reshuffle state of either environment that satisfies the revealed-count
invariant (shoe weight plus counter equals minus the weight of the dealer's
last card while the hole card is unrevealed, and 0 once it is revealed).
The invariant holds on states reached by clean play, but reachable states
violating it exist — the original, unconditional claim is refuted by
`c1_count_neutrality_counterexample`. -/
theorem c1_count_neutral_amended :
    (∀ (s s2 : SEnv), reshuffle_single s = Except.ok s2 →
       count_inv_single s → Qs s2 = Qs s) ∧
    (∀ (s s2 : TEnv), reshuffle_split s = Except.ok s2 →
       count_inv_split s → Qt s2 = Qt s) := by
  constructor
  · intro s s2 h hinv
    obtain ⟨-, -, -, -, -, -, -, -, hq⟩ := reshuffle_single_spec h
    rw [Qs, Qs, hq, hinv]
  · intro s s2 h hinv
    obtain ⟨-, -, -, -, -, -, -, -, -, -, -, -, -, -, hq⟩ :=
      reshuffle_split_spec h
    rw [Qt, Qt, hq, hinv]

/-- C1 counterexample: a reachable pre-reshuffle state where the quantity
(shoe weight sum + counter) is NOT preserved by the reshuffle.  Trace
(single variant, one deck, `shuffle_on = 40`): a round ended by a busting
DOUBLE — whose branch counts the hole card twice — followed by a reset and
four hits brings the deck to 39 < 40 with the quantity at -1; the
reshuffle correction rebuilds a state with quantity 0. -/
theorem c1_count_neutrality_counterexample :
    run_single (init_single 1 40 false []) c1_g c1_script =
      Except.ok (c1_pre, []) ∧
    c1_pre.deck.length < c1_pre.shuffle_on ∧
    reshuffle_single c1_pre = Except.ok c1_post ∧
    Qs c1_post ≠ Qs c1_pre := by
  refine ⟨?_, ?_, ?_, ?_⟩
  · with_unfolding_all rfl
  · with_unfolding_all decide
  · with_unfolding_all rfl
  · with_unfolding_all decide

/-- C1 witness: concrete invariant-satisfying states of both environments
whose reshuffles preserve the quantity. -/
theorem c1_count_neutral_amended_witness :
    reshuffle_single c1w_s = Except.ok c1w_s2 ∧ count_inv_single c1w_s ∧
    Qs c1w_s2 = Qs c1w_s ∧
    reshuffle_split c1w_t = Except.ok c1w_t2 ∧ count_inv_split c1w_t ∧
    Qt c1w_t2 = Qt c1w_t := by
  refine ⟨?_, ?_, ?_, ?_, ?_, ?_⟩
  · with_unfolding_all rfl
  · with_unfolding_all decide
  · exact c1_count_neutral_amended.1 c1w_s c1w_s2 (by with_unfolding_all rfl)
      (by with_unfolding_all decide)
  · with_unfolding_all rfl
  · with_unfolding_all decide
  · exact c1_count_neutral_amended.2 c1w_t c1w_t2 (by with_unfolding_all rfl)
      (by with_unfolding_all decide)

end BJ
